import Mathlib

/-!
Verification of the consent-gated differential-privacy query engine
(`mypriv360`): a shallow embedding of the Noise Engine
(`src/lib/privacy/differentialPrivacy.ts`), Token Service (`src/lib/jwt.ts`),
Policy Evaluator and guards (`src/lib/guards.ts`), Rate Limiter
(`src/lib/rateLimit.ts`) and the Query Orchestrator
(`POST /api/pdp/query`), together with theorems settling the spec claims.

Numbers are modelled with `ℚ` (JS floating point treated as exact
arithmetic) and `ℤ` for millisecond/second timestamps.  Randomness is
modelled by passing the Laplace noise sampler explicitly as a function
`sample : ℚ → ℚ` from the noise scale to the drawn noise, so that all
definitions stay executable.
-/

namespace DP

/-- Error taxonomy of the noise engine: each constructor stands for one
`throw new Error(...)` message in `differentialPrivacy.ts`. -/
inductive DPError
  /-- "Epsilon must be positive" -/
  | epsilonMustBePositive
  /-- "Sensitivity must be positive" -/
  | sensitivityMustBePositive
  /-- "Cannot compute mean of empty array" -/
  | emptyArray
  /-- "minValue must be less than maxValue" -/
  | minNotLtMax
  /-- "Epsilon must be a number for ..." (NaN input; unreachable over ℚ) -/
  | epsilonNotANumber
deriving DecidableEq, Repr

/-- `laplaceMechanism(value, epsilon, sensitivity = 1)`:
validates the parameters and adds `sampleLaplace(sensitivity / epsilon)`.
The draw from the Laplace distribution is supplied as `sample`. -/
def laplaceMechanism (sample : ℚ → ℚ) (value epsilon sensitivity : ℚ) :
    Except DPError ℚ :=
  if epsilon ≤ 0 then .error .epsilonMustBePositive
  else if sensitivity ≤ 0 then .error .sensitivityMustBePositive
  else
    let scale := sensitivity / epsilon
    let noise := sample scale
    .ok (value + noise)

/-- `dpMean(values, epsilon, minValue, maxValue)`: differentially private
mean; true mean plus Laplace noise at sensitivity `(max - min) / n`. -/
def dpMean (sample : ℚ → ℚ) (values : List ℚ) (epsilon minValue maxValue : ℚ) :
    Except DPError ℚ :=
  if values.length = 0 then .error .emptyArray
  else if epsilon ≤ 0 then .error .epsilonMustBePositive
  else if minValue ≥ maxValue then .error .minNotLtMax
  else
    let trueMean := values.sum / (values.length : ℚ)
    let sensitivity := (maxValue - minValue) / (values.length : ℚ)
    laplaceMechanism sample trueMean epsilon sensitivity

/-- Outcome of `validateEpsilon`: the function returns `true`; the two
fields record whether the large or small epsilon `console.warn` advisories
fired. -/
structure EpsilonCheck where
  warnLarge : Bool
  warnSmall : Bool
deriving DecidableEq, Repr

/-- `validateEpsilon(epsilon)`: throws for `epsilon <= 0`, otherwise
returns `true` after possibly emitting non-blocking advisories
(`epsilon > 10`: weak privacy; `epsilon < 0.01`: noise dominates). -/
def validateEpsilon (epsilon : ℚ) : Except DPError EpsilonCheck :=
  if epsilon ≤ 0 then .error .epsilonMustBePositive
  else .ok { warnLarge := decide (epsilon > 10), warnSmall := decide (epsilon < 1/100) }

end DP

namespace Jwt

/-- A JSON claim value as far as `verifyConsentToken`'s field checks can
distinguish them: a string, a number, an array of strings, or anything
else (`other` covers objects, booleans, null, mixed arrays...). -/
inductive JVal
  | str (v : String)
  | num (v : Int)
  | arr (v : List String)
  | other
deriving DecidableEq, Repr

/-- The decoded claims set of a token, each field optional (absent means
the JSON object has no such key). -/
structure JosePayload where
  sub : Option JVal
  purpose : Option JVal
  categories : Option JVal
  scopes : Option JVal
  iat : Option JVal
  exp : Option JVal
deriving DecidableEq, Repr

/-- Abstraction of a raw JWT string: the facts about it that
`verifyConsentToken` and the `jose` library branch on.  `emptyStr` is
whether the string is empty, `threeSegments` whether it splits into
exactly three dot-separated segments forming a compact JWS, `sigOk`
whether the HS256 signature verifies against the configured secret, and
`payload` the decoded claims set. -/
structure TokenModel where
  emptyStr : Bool
  threeSegments : Bool
  sigOk : Bool
  payload : JosePayload
deriving DecidableEq, Repr

/-- Modelled from the spec: the errors thrown by the external `jose`
library's `jwtVerify`, identified by their message strings, which
`verifyConsentToken`'s catch clause inspects with `String.includes`. -/
inductive JoseErr
  /-- `JWSInvalid`: "Invalid Compact JWS" (not three dot segments). -/
  | invalidCompactJWS
  /-- `JWSSignatureVerificationFailed`: "signature verification failed". -/
  | signatureVerificationFailed
  /-- `JWTClaimValidationFailed`: "\x22iat\x22 claim must be a number". -/
  | iatMustBeNumber
  /-- `JWTClaimValidationFailed`: "\x22exp\x22 claim must be a number". -/
  | expMustBeNumber
  /-- `JWTExpired`: "\x22exp\x22 claim timestamp check failed". -/
  | expTimestampCheckFailed
deriving DecidableEq, Repr

/-- Whether the jose error's message string contains the substring
"exp" (checked by `error.message.includes('exp')`). -/
def JoseErr.msgHasExp : JoseErr → Bool
  | .expMustBeNumber => true
  | .expTimestampCheckFailed => true
  | _ => false

/-- Whether the jose error's message string contains the substring
"signature" (checked by `error.message.includes('signature')`). -/
def JoseErr.msgHasSignature : JoseErr → Bool
  | .signatureVerificationFailed => true
  | _ => false

/-- Whether an optional claim is present as a number. -/
def isNumClaim : Option JVal → Bool
  | some (.num _) => true
  | _ => false

/-- Modelled from the spec (and the `jose` v4 library, an external
dependency): `jwtVerify(token, secret)` rejects a token that is not a
three-segment compact JWS, then verifies the signature, then validates
the claims set: a present `iat` must be a number, a present `exp` must
be a number and strictly in the future (`exp <= now` is expired).
`nowSec` is the current epoch time in seconds. -/
def jwtVerify (t : TokenModel) (nowSec : Int) : Except JoseErr JosePayload :=
  if ¬ t.threeSegments then .error .invalidCompactJWS
  else if ¬ t.sigOk then .error .signatureVerificationFailed
  else if t.payload.iat.isSome && ¬ isNumClaim t.payload.iat then
    .error .iatMustBeNumber
  else match t.payload.exp with
    | some (.num e) =>
        if e ≤ nowSec then .error .expTimestampCheckFailed else .ok t.payload
    | some _ => .error .expMustBeNumber
    | none => .ok t.payload

/-- `ConsentTokenError.code` values. -/
inductive TokenErrCode
  | EXPIRED
  | INVALID
  | MALFORMED
  | VERIFICATION_FAILED
deriving DecidableEq, Repr

/-- The payload after `verifyConsentToken`'s field validation succeeded
(the cast to `ConsentTokenPayload`). -/
structure ValidPayload where
  sub : String
  purpose : String
  categories : List String
  scopes : List String
  iat : Int
  exp : Int
deriving DecidableEq, Repr

/-- JS check `!x || typeof x !== 'string'`: the field passes iff present,
a string, and truthy (non-empty). -/
def truthyStr : Option JVal → Option String
  | some (.str v) => if v = "" then none else some v
  | _ => none

/-- JS check `!Array.isArray(x)`: passes iff the field is an array. -/
def arrVal : Option JVal → Option (List String)
  | some (.arr v) => some v
  | _ => none

/-- JS check `!x || typeof x !== 'number'`: passes iff present, a number,
and truthy (non-zero). -/
def truthyNum : Option JVal → Option Int
  | some (.num v) => if v = 0 then none else some v
  | _ => none

/-- `verifyConsentToken(token)`: `MALFORMED` for an empty token; then
`jwtVerify`, whose errors are mapped by message content (`includes('exp')`
to `EXPIRED`, `includes('signature')` and everything else to
`VERIFICATION_FAILED`); then the required-field checks, each failing
with `INVALID`; on success the validated payload. -/
def verifyConsentToken (t : TokenModel) (nowSec : Int) :
    Except TokenErrCode ValidPayload :=
  if t.emptyStr then .error .MALFORMED
  else match jwtVerify t nowSec with
  | .error m =>
      if m.msgHasExp then .error .EXPIRED
      else if m.msgHasSignature then .error .VERIFICATION_FAILED
      else .error .VERIFICATION_FAILED
  | .ok p =>
      match truthyStr p.sub with
      | none => .error .INVALID
      | some sub =>
      match truthyStr p.purpose with
      | none => .error .INVALID
      | some purpose =>
      match arrVal p.categories with
      | none => .error .INVALID
      | some categories =>
      match arrVal p.scopes with
      | none => .error .INVALID
      | some scopes =>
      match truthyNum p.iat with
      | none => .error .INVALID
      | some iat =>
      match truthyNum p.exp with
      | none => .error .INVALID
      | some exp => .ok ⟨sub, purpose, categories, scopes, iat, exp⟩

/-! ### Issuing and decoding

`_issueToken` serializes the claims with `jose.SignJWT` into
`base64url(header) . base64url(JSON(payload)) . signature`, and
`decodeConsentToken` splits on dots and runs `JSON.parse(atob(parts[1]))`.
The JSON plus base64url codec is external library and platform code, so
it is modelled from the spec by an explicit injective serializer over the
alphabet `{a, b}` (like base64url, the alphabet contains no dot) together
with its parse function. -/

/-- Modelled from the spec: stand-in for the base64url digit encoding of
a natural number, `n` copies of the letter a then a terminating b. -/
def encNat (n : Nat) : List Char := List.replicate n 'a' ++ ['b']

/-- Inverse of `encNat`, returning the remainder of the input. -/
def decNat : List Char → Option (Nat × List Char)
  | [] => none
  | c :: rest =>
    if c = 'b' then some (0, rest)
    else if c = 'a' then (decNat rest).map (fun p => (p.1 + 1, p.2))
    else none

/-- Serialize a list: its length, then each element. -/
def encListBy (enc : α → List Char) (l : List α) : List Char :=
  encNat l.length ++ l.foldr (fun x acc => enc x ++ acc) []

/-- Read `n` consecutive elements with `dec`. -/
def decCount (dec : List Char → Option (α × List Char)) :
    Nat → List Char → Option (List α × List Char)
  | 0, cs => some ([], cs)
  | n + 1, cs =>
    match dec cs with
    | some (x, cs₁) => (decCount dec n cs₁).map (fun p => (x :: p.1, p.2))
    | none => none

/-- Inverse of `encListBy`. -/
def decListBy (dec : List Char → Option (α × List Char)) (cs : List Char) :
    Option (List α × List Char) :=
  match decNat cs with
  | some (n, cs₁) => decCount dec n cs₁
  | none => none

/-- Serialize a string as the list of its character codes. -/
def encStr (s : String) : List Char := encListBy encNat (s.data.map Char.toNat)

/-- Inverse of `encStr`. -/
def decStr (cs : List Char) : Option (String × List Char) :=
  (decListBy decNat cs).map (fun p => (String.mk (p.1.map Char.ofNat), p.2))

/-- Serialize an integer: a sign tag then the absolute value. -/
def encInt (i : Int) : List Char :=
  encNat (if i < 0 then 1 else 0) ++ encNat i.natAbs

/-- Inverse of `encInt`. -/
def decInt (cs : List Char) : Option (Int × List Char) :=
  match decNat cs with
  | some (tag, cs₁) =>
      (decNat cs₁).map
        (fun p => (if tag = 0 then (p.1 : Int) else -(p.1 : Int), p.2))
  | none => none

/-- Modelled from the spec: stand-in for `base64url(JSON(payload))`, the
middle segment of the signed compact JWS built by `jose.SignJWT` from the
claims `{sub, purpose, categories, scopes, iat, exp}`. -/
def encSeg (p : ValidPayload) : List Char :=
  encStr p.sub ++ encStr p.purpose ++ encListBy encStr p.categories ++
    encListBy encStr p.scopes ++ encInt p.iat ++ encInt p.exp

/-- Modelled from the spec: stand-in for `JSON.parse(atob(segment))` on a
payload segment, the inverse of `encSeg`; any input it cannot parse as a
consent-token claims object yields `none` (the `catch` branch). -/
def decSeg (cs : List Char) : Option ValidPayload :=
  match decStr cs with
  | none => none
  | some (sub, cs₁) =>
  match decStr cs₁ with
  | none => none
  | some (purpose, cs₂) =>
  match decListBy decStr cs₂ with
  | none => none
  | some (categories, cs₃) =>
  match decListBy decStr cs₃ with
  | none => none
  | some (scopes, cs₄) =>
  match decInt cs₄ with
  | none => none
  | some (iat, cs₅) =>
  match decInt cs₅ with
  | none => none
  | some (exp, cs₆) =>
      if cs₆ = [] then some ⟨sub, purpose, categories, scopes, iat, exp⟩
      else none

/-- Modelled from the spec: the base64url protected-header segment
`{alg: HS256}`; its content is irrelevant to `decodeConsentToken`. -/
def headerSeg : List Char := encStr "HS256"

/-- Modelled from the spec: the HMAC signature segment; dot-free
base64url whose content is irrelevant to `decodeConsentToken`. -/
def sigSeg : List Char := encNat 0

/-- Parameters of `issueConsentToken` (the object-based signature). -/
structure IssueParams where
  userId : String
  purpose : String
  categories : List String
  scopes : List String
  ttlMinutes : Int
deriving DecidableEq, Repr

/-- `_issueToken(params)`: computes `iat = floor(nowMs / 1000)`,
`exp = iat + ttlMinutes * 60`, signs the claims
`{sub, purpose, categories, scopes, iat, exp}` into a three-segment
compact JWS, and returns the token with its expiry. -/
def issueConsentToken (params : IssueParams) (nowMs : Int) :
    List Char × Int :=
  let now := Int.fdiv nowMs 1000
  let exp := now + params.ttlMinutes * 60
  let payload : ValidPayload :=
    ⟨params.userId, params.purpose, params.categories, params.scopes, now, exp⟩
  (headerSeg ++ '.' :: (encSeg payload ++ '.' :: sigSeg), exp)

/-- JS `token.split('.')` on a character list. -/
def splitDots : List Char → List (List Char)
  | [] => [[]]
  | c :: rest =>
    if c = '.' then [] :: splitDots rest
    else
      match splitDots rest with
      | [] => [[c]]
      | seg :: segs => (c :: seg) :: segs

/-- `decodeConsentToken(token)`: split on dots, require exactly three
parts and a truthy (non-empty) middle part, then parse it without any
signature or expiry verification; `null` on any failure. -/
def decodeConsentToken (token : List Char) : Option ValidPayload :=
  let parts := splitDots token
  if parts.length ≠ 3 then none
  else
    match parts[1]? with
    | none => none
    | some seg => if seg = [] then none else decSeg seg

end Jwt

namespace Guards

/-- `ConsentPolicy` row (with its joined `category` relation: `categoryKey`
is `category.key`, `categoryName` is `category.name`). -/
inductive PolicyStatus
  | GRANTED
  | RESTRICTED
  | REVOKED
deriving DecidableEq, Repr

/-- A consent policy row as loaded by `ensureConsentAllowed`. -/
structure Policy where
  userId : String
  categoryKey : String
  categoryName : String
  purpose : String
  status : PolicyStatus
  scopes : List String
  expiresAtMs : Option Int
deriving DecidableEq, Repr

/-- `ConsentCheckParams`. -/
structure ConsentCheckParams where
  userId : String
  categories : List String
  purpose : String
  scopes : List String
deriving DecidableEq, Repr

/-- The `ForbiddenError`s thrown by `ensureConsentAllowed`, by code, with
the data interpolated into their messages. -/
inductive ConsentErr
  /-- INVALID_CONSENT_PARAMS -/
  | invalidParams
  /-- MISSING_CONSENT_POLICY, naming the missing categories -/
  | missingConsentPolicy (missing : List String)
  /-- CONSENT_REVOKED -/
  | consentRevoked (categoryName : String)
  /-- CONSENT_RESTRICTED -/
  | consentRestricted (categoryName : String)
  /-- INVALID_CONSENT_STATUS -/
  | invalidConsentStatus (categoryName : String)
  /-- CONSENT_EXPIRED -/
  | consentExpired (categoryName : String)
  /-- INSUFFICIENT_SCOPES, naming the missing scopes -/
  | insufficientScopes (categoryName : String) (missing : List String)
deriving DecidableEq, Repr

/-- The per-policy loop body of `ensureConsentAllowed`: status checks,
expiry check, then the scope-subset check, short-circuiting on the first
failing policy. -/
def checkPolicies (nowMs : Int) (scopes : List String) :
    List Policy → Except ConsentErr Unit
  | [] => .ok ()
  | policy :: rest =>
    if policy.status = .REVOKED then .error (.consentRevoked policy.categoryName)
    else if policy.status = .RESTRICTED then
      .error (.consentRestricted policy.categoryName)
    else if policy.status ≠ .GRANTED then
      .error (.invalidConsentStatus policy.categoryName)
    else if (match policy.expiresAtMs with
             | some e => decide (e < nowMs)
             | none => false) then
      .error (.consentExpired policy.categoryName)
    else
      let missingScopes := scopes.filter (fun s => ¬ policy.scopes.contains s)
      if missingScopes ≠ [] then
        .error (.insufficientScopes policy.categoryName missingScopes)
      else checkPolicies nowMs scopes rest

/-- `ensureConsentAllowed(params)`: validates the parameters (`categories`
and `scopes` are typed lists here, so only the JS falsy checks on
`userId` and `purpose` remain), loads every policy of the user whose
category key is among the requested categories with the given purpose,
fails with the missing categories if any requested category has no
policy row, and then checks each loaded policy. -/
def ensureConsentAllowed (policies : List Policy) (nowMs : Int)
    (params : ConsentCheckParams) : Except ConsentErr Unit :=
  if params.userId = "" ∨ params.purpose = "" then .error .invalidParams
  else
    let consentPolicies := policies.filter
      (fun p => p.userId == params.userId &&
        params.categories.contains p.categoryKey && p.purpose == params.purpose)
    let policyCategoryKeys := consentPolicies.map (fun p => p.categoryKey)
    let missingCategories := params.categories.filter
      (fun cat => ¬ policyCategoryKeys.contains cat)
    if missingCategories ≠ [] then .error (.missingConsentPolicy missingCategories)
    else checkPolicies nowMs params.scopes consentPolicies

/-- `ApiClient` row. -/
structure ApiClient where
  id : String
  name : String
  apiKey : String
deriving DecidableEq, Repr

/-- A persisted `ConsentToken` row. -/
structure StoredToken where
  id : String
  jwt : Jwt.TokenModel
  userId : String
  revoked : Bool
  expiresAtMs : Int
  purpose : String
  categories : List String
deriving DecidableEq, Repr

/-- The `Authorization` header, already split on spaces: the number of
parts the split produced, the first part (the scheme word), and the
bearer token carried in the second part. -/
structure AuthHeader where
  partsLen : Nat
  scheme : String
  token : Jwt.TokenModel
deriving DecidableEq, Repr

/-- A typed failure response: HTTP status, machine code, and the
`Retry-After` seconds when rate limited. -/
structure Failure where
  status : Int
  code : String
  retryAfter : Option Int
deriving DecidableEq, Repr

/-- ASCII lower-casing of one character (JS `toLowerCase` on the scheme
word, which is ASCII). -/
def asciiLower (c : Char) : Char :=
  if 'A' ≤ c ∧ c ≤ 'Z' then Char.ofNat (c.toNat + 32) else c

/-- JS `s.toLowerCase()` as a character list. -/
def lowerStr (s : String) : List Char := s.data.map asciiLower

/-- The mapping of `ensureConsentAllowed`'s thrown `ForbiddenError`s to
typed failures (each carries HTTP status 403 and its code). -/
def consentErrFailure : ConsentErr → Failure
  | .invalidParams => ⟨403, "INVALID_CONSENT_PARAMS", none⟩
  | .missingConsentPolicy _ => ⟨403, "MISSING_CONSENT_POLICY", none⟩
  | .consentRevoked _ => ⟨403, "CONSENT_REVOKED", none⟩
  | .consentRestricted _ => ⟨403, "CONSENT_RESTRICTED", none⟩
  | .invalidConsentStatus _ => ⟨403, "INVALID_CONSENT_STATUS", none⟩
  | .consentExpired _ => ⟨403, "CONSENT_EXPIRED", none⟩
  | .insufficientScopes _ _ => ⟨403, "INSUFFICIENT_SCOPES", none⟩

/-- `requireApiClient(req)`: 401 `API_KEY_REQUIRED` without an `x-api-key`
header, 401 `INVALID_API_KEY` when no `ApiClient` row has that key. -/
def requireApiClient (apiClients : List ApiClient) (apiKeyHeader : Option String) :
    Except Failure ApiClient :=
  match apiKeyHeader with
  | none => .error ⟨401, "API_KEY_REQUIRED", none⟩
  | some apiKey =>
    match apiClients.find? (fun c => c.apiKey == apiKey) with
    | none => .error ⟨401, "INVALID_API_KEY", none⟩
    | some apiClient => .ok apiClient

/-- The `switch (error.code)` mapping of `ConsentTokenError`s to 403
`ForbiddenError`s in `requireConsentToken`. -/
def tokenErrFailure : Jwt.TokenErrCode → Failure
  | .EXPIRED => ⟨403, "TOKEN_EXPIRED", none⟩
  | .INVALID => ⟨403, "INVALID_TOKEN", none⟩
  | .MALFORMED => ⟨403, "MALFORMED_TOKEN", none⟩
  | .VERIFICATION_FAILED => ⟨403, "TOKEN_VERIFICATION_FAILED", none⟩

/-- `requireConsentToken(authHeader)`: requires a `Bearer <token>` header,
verifies the JWT, then cross-checks the persisted token record: it must
exist (`TOKEN_NOT_FOUND`), not be revoked (`TOKEN_REVOKED`) and not be
past its stored expiry (`TOKEN_EXPIRED`). -/
def requireConsentToken (consentTokens : List StoredToken)
    (authHeader : Option AuthHeader) (nowMs : Int) :
    Except Failure Jwt.ValidPayload :=
  match authHeader with
  | none => .error ⟨403, "AUTH_HEADER_REQUIRED", none⟩
  | some hdr =>
    if hdr.partsLen ≠ 2 ∨ lowerStr hdr.scheme ≠ "bearer".data then
      .error ⟨403, "INVALID_AUTH_FORMAT", none⟩
    else
      match Jwt.verifyConsentToken hdr.token (Int.fdiv nowMs 1000) with
      | .error c => .error (tokenErrFailure c)
      | .ok payload =>
        match consentTokens.find?
            (fun st => st.jwt == hdr.token && st.userId == payload.sub) with
        | none => .error ⟨403, "TOKEN_NOT_FOUND", none⟩
        | some storedToken =>
          if storedToken.revoked then .error ⟨403, "TOKEN_REVOKED", none⟩
          else if storedToken.expiresAtMs < nowMs then
            .error ⟨403, "TOKEN_EXPIRED", none⟩
          else .ok payload

end Guards

namespace RateLimit

/-- One entry of `RATE_LIMIT_CONFIG`. -/
structure RateConfig where
  requests : Int
  windowMs : Int
deriving DecidableEq, Repr

/-- `RATE_LIMIT_CONFIG` lookup with its `default` fallback. -/
def rateLimitConfig (endpoint : String) : RateConfig :=
  if endpoint = "/api/pdp/query" then ⟨100, 60000⟩ else ⟨1000, 60000⟩

/-- A `RateLimitBucket` row: composite unique key
`(apiKey, endpoint, windowStart)` plus the request counter. -/
structure Bucket where
  apiKey : String
  endpoint : String
  windowStart : Int
  requestCount : Int
deriving DecidableEq, Repr

/-- A successful `RateLimitResult`. -/
structure RLResult where
  allowed : Bool
  limit : Int
  remaining : Int
  resetTime : Int
  retryAfter : Option Int
deriving DecidableEq, Repr

/-- The fields carried by a thrown `RateLimitError`. -/
structure RateLimitError where
  limit : Int
  remaining : Int
  resetTime : Int
  retryAfter : Int
deriving DecidableEq, Repr

/-- The composite-key lookup of the current window's bucket. -/
def findBucket (buckets : List Bucket) (apiKey endpoint : String)
    (windowStart : Int) : Option Bucket :=
  buckets.find? (fun b =>
    b.apiKey == apiKey && b.endpoint == endpoint && b.windowStart == windowStart)

/-- The body of `checkRateLimit` after the configuration lookup.  The
counter store is modelled explicitly: `storeOk = false` means the
transaction threw (a database failure), which the catch clause turns
into the fail-open result (allowed, full limit remaining, no write).
With a working store: find or create (count 1) the bucket for the
current fixed window; a pre-existing bucket at or above the ceiling
yields a thrown `RateLimitError` with
`retryAfter = ceil((resetTime - now) / 1000)` and no increment;
otherwise the counter is incremented and the result reports the
remaining capacity.  Returns the outcome together with the updated
bucket store. -/
def checkRateLimitWith (config : RateConfig) (storeOk : Bool)
    (buckets : List Bucket) (apiKey endpoint : String) (nowMs : Int) :
    Except RateLimitError RLResult × List Bucket :=
  let windowStart := Int.fdiv nowMs config.windowMs * config.windowMs
  let resetTime := windowStart + config.windowMs
  if storeOk then
    match findBucket buckets apiKey endpoint windowStart with
    | none =>
        (.ok ⟨true, config.requests, config.requests - 1, resetTime, none⟩,
         buckets ++ [⟨apiKey, endpoint, windowStart, 1⟩])
    | some bucket =>
        if bucket.requestCount ≥ config.requests then
          let retryAfter := ⌈((resetTime - nowMs : ℤ) : ℚ) / 1000⌉
          (.error ⟨config.requests, 0, resetTime, retryAfter⟩, buckets)
        else
          let updatedCount := bucket.requestCount + 1
          (.ok ⟨true, config.requests, config.requests - updatedCount,
                resetTime, none⟩,
           buckets.map (fun b =>
             if b.apiKey == apiKey && b.endpoint == endpoint &&
                 b.windowStart == windowStart then
               { b with requestCount := b.requestCount + 1 }
             else b))
  else
    (.ok ⟨true, config.requests, config.requests, resetTime, none⟩, buckets)

/-- `checkRateLimit(apiKey, endpoint)`: configuration lookup then the
transactional check above. -/
def checkRateLimit (storeOk : Bool) (buckets : List Bucket)
    (apiKey endpoint : String) (nowMs : Int) :
    Except RateLimitError RLResult × List Bucket :=
  checkRateLimitWith (rateLimitConfig endpoint) storeOk buckets apiKey endpoint nowMs

end RateLimit

namespace Pdp

/-- The aggregation names accepted by `querySchema`'s `z.enum`. -/
inductive Agg
  | mean
  | count
  | sum
  | min
  | max
deriving DecidableEq, Repr

/-- The JSON request body before validation: each field either absent or
present with the right JS type (a body field of the wrong JSON type is
rejected by zod exactly like an out-of-range one, so it is folded into
the same modelled failure and not distinguished here). -/
structure RawBody where
  category : Option String
  purpose : Option String
  epsilon : Option ℚ
  aggregations : Option (List String)
deriving DecidableEq, Repr

/-- The validated body produced by `querySchema.parse`. -/
structure QueryParams where
  category : String
  purpose : String
  epsilon : ℚ
  aggregations : List Agg
deriving DecidableEq, Repr

/-- One member of `z.enum(['mean', 'count', 'sum', 'min', 'max'])`. -/
def parseAgg (s : String) : Option Agg :=
  if s = "mean" then some .mean
  else if s = "count" then some .count
  else if s = "sum" then some .sum
  else if s = "min" then some .min
  else if s = "max" then some .max
  else none

/-- Elementwise parse of the `aggregations` array. -/
def parseAggs : List String → Option (List Agg)
  | [] => some []
  | s :: rest =>
    match parseAgg s, parseAggs rest with
    | some a, some l => some (a :: l)
    | _, _ => none

/-- `querySchema.parse(body)`: `category` and `purpose` required non-empty
strings, `epsilon` an optional number in `[0.01, 10]` defaulting to
`1.0`, `aggregations` an optional array over the aggregation enum
defaulting to `['count']`; `none` is a thrown `ZodError`. -/
def querySchemaParse (body : RawBody) : Option QueryParams :=
  match body.category with
  | none => none
  | some category =>
  if category = "" then none
  else
  match body.purpose with
  | none => none
  | some purpose =>
  if purpose = "" then none
  else
  match (match body.epsilon with
         | none => some (1 : ℚ)
         | some e => if e < 1/100 ∨ 10 < e then none else some e) with
  | none => none
  | some epsilon =>
  match (match body.aggregations with
         | none => some [Agg.count]
         | some l => parseAggs l) with
  | none => none
  | some aggregations => some ⟨category, purpose, epsilon, aggregations⟩

/-- A `DataCategory` catalog row. -/
structure DataCategory where
  key : String
  name : String
deriving DecidableEq, Repr

/-- One value of a sample-data JSON payload: a (non-NaN) number, `NaN`,
or any non-number JSON value. -/
inductive PVal
  | num (q : ℚ)
  | nan
  | other
deriving DecidableEq, Repr

/-- A `SampleData` row: owner, category, JSON payload (field name to
value), creation time. -/
structure Sample where
  userId : String
  categoryKey : String
  payload : List (String × PVal)
  createdAtMs : Int
deriving DecidableEq, Repr

/-- The relational store visible to the query endpoint. -/
structure Db where
  apiClients : List Guards.ApiClient
  buckets : List RateLimit.Bucket
  consentTokens : List Guards.StoredToken
  policies : List Guards.Policy
  dataCategories : List DataCategory
  samples : List Sample
deriving DecidableEq, Repr

/-- The inbound HTTP request: `x-api-key` header, `Authorization`
header, JSON body. -/
structure Req where
  apiKeyHeader : Option String
  authHeader : Option Guards.AuthHeader
  body : RawBody
deriving DecidableEq, Repr

/-- `extractNumericValues(sampleData)`: all numeric non-NaN leaf values
across the payloads, in record-then-field order. -/
def extractNumericValues (sampleData : List Sample) : List ℚ :=
  (sampleData.map (fun sample =>
    sample.payload.filterMap (fun kv =>
      match kv.2 with
      | .num q => some q
      | _ => none))).flatten

/-- The bounds returned by `estimateDataBounds`. -/
structure DataBounds where
  lower : ℚ
  upper : ℚ
deriving DecidableEq, Repr

/-- `estimateDataBounds(values, category)`: default bounds for an empty
list; otherwise sort ascending (JS `sort((a, b) => a - b)`, modelled by
insertion sort, which computes the same ascending reordering) and take
the ends, then widen per category: `health` to at least `[0, 200]`,
`financial` to at least `[0, 10000]`, `location` to at least
`[-180, 180]`, and otherwise pad both ends by 10% of the observed
range. -/
def estimateDataBounds (values : List ℚ) (category : String) : DataBounds :=
  if values.length = 0 then ⟨0, 100⟩
  else
    let sortedValues := values.insertionSort (· ≤ ·)
    let actualMin := sortedValues.headD 0
    let actualMax := sortedValues.getLastD 0
    if category = "health" then ⟨Min.min actualMin 0, Max.max actualMax 200⟩
    else if category = "financial" then
      ⟨Min.min actualMin 0, Max.max actualMax 10000⟩
    else if category = "location" then
      ⟨Min.min actualMin (-180), Max.max actualMax 180⟩
    else
      let range := actualMax - actualMin
      ⟨actualMin - range * (1/10), actualMax + range * (1/10)⟩

/-- The `results` record accumulated by the aggregation loop.  `count` is
the noised record count; for the other aggregations, the outer `Option`
is whether the key was written at all and the inner `Option` is JSON
`null` (no numeric values present). -/
structure AggResults where
  count : Option Int
  mean : Option (Option ℚ)
  sum : Option (Option ℚ)
  min : Option (Option ℚ)
  max : Option (Option ℚ)
deriving DecidableEq, Repr

/-- One iteration of the aggregation `switch`.  `numAggregations` is the
length of the full requested list: every noised statistic uses the split
budget `epsilon / numAggregations`.  `mean` uses `dpMean` with the
estimated bounds; `sum`, `min` and `max` apply `laplaceMechanism`
(default sensitivity 1) to the true statistic; with no numeric values
the result field is JSON `null`.  A thrown noise-engine error aborts the
request. -/
def aggStep (sample : ℚ → ℚ) (sampleData : List Sample) (epsilon : ℚ)
    (numAggregations : Nat) (category : String) (results : AggResults) :
    Agg → Except DP.DPError AggResults
  | .count => .ok results
  | .mean =>
    let numericValues := extractNumericValues sampleData
    if numericValues.length > 0 then
      let bounds := estimateDataBounds numericValues category
      (DP.dpMean sample numericValues (epsilon / numAggregations)
          bounds.lower bounds.upper).map
        (fun m => { results with mean := some (some m) })
    else .ok { results with mean := some none }
  | .sum =>
    let sumValues := extractNumericValues sampleData
    if sumValues.length > 0 then
      let trueSum := sumValues.sum
      (DP.laplaceMechanism sample trueSum (epsilon / numAggregations) 1).map
        (fun v => { results with sum := some (some v) })
    else .ok { results with sum := some none }
  | .min =>
    let minValues := extractNumericValues sampleData
    if minValues.length > 0 then
      let trueMin := minValues.min?.getD 0
      (DP.laplaceMechanism sample trueMin (epsilon / numAggregations) 1).map
        (fun v => { results with min := some (some v) })
    else .ok { results with min := some none }
  | .max =>
    let maxValues := extractNumericValues sampleData
    if maxValues.length > 0 then
      let trueMax := maxValues.max?.getD 0
      (DP.laplaceMechanism sample trueMax (epsilon / numAggregations) 1).map
        (fun v => { results with max := some (some v) })
    else .ok { results with max := some none }

/-- The `for (const aggregation of aggregations)` loop, short-circuiting
on a thrown error. -/
def runAggs (sample : ℚ → ℚ) (sampleData : List Sample) (epsilon : ℚ)
    (numAggregations : Nat) (category : String) (results : AggResults) :
    List Agg → Except DP.DPError AggResults
  | [] => .ok results
  | agg :: rest =>
    match aggStep sample sampleData epsilon numAggregations category results agg with
    | .error e => .error e
    | .ok results₁ =>
        runAggs sample sampleData epsilon numAggregations category results₁ rest

/-- The rate-limit response headers attached to a success response. -/
structure RateHeaders where
  limit : Int
  remaining : Int
  reset : Int
deriving DecidableEq, Repr

/-- The success payload of the endpoint.  `noData` marks the early
return taken when the user has no records in the category (that branch
carries no rate-limit headers, hence `headers` is optional). -/
structure SuccessData where
  results : AggResults
  epsilon : ℚ
  category : String
  purpose : String
  userId : String
  recordCount : Int
  noData : Bool
  headers : Option RateHeaders
deriving DecidableEq, Repr

/-- The endpoint's outcome: a 200 success or a typed failure. -/
inductive PostResult
  | ok (d : SuccessData)
  | err (f : Guards.Failure)
deriving DecidableEq, Repr

/-- `POST /api/pdp/query`: API-client authentication, rate limiting
(429 with `Retry-After` on deny), consent-token verification with the
persisted revocation and expiry cross-check, body validation, policy
evaluation for the category and purpose with required scopes
`[read, aggregate]`, catalog check, record fetch (newest first), access
logging (an external fire-and-forget collaborator, a no-op here), then
the noised count (full epsilon, rounded, clamped at 0), the no-data
early return, and the aggregation loop.  A noise-engine error reaches
`handleApiError`, whose message never matches a special case, giving
500 `INTERNAL_ERROR`.  Returns the response and the updated store. -/
def POST (db : Db) (req : Req) (nowMs : Int) (storeOk : Bool)
    (sample : ℚ → ℚ) : PostResult × Db :=
  match Guards.requireApiClient db.apiClients req.apiKeyHeader with
  | .error f => (.err f, db)
  | .ok apiClient =>
  match RateLimit.checkRateLimit storeOk db.buckets apiClient.apiKey
      "/api/pdp/query" nowMs with
  | (.error e, buckets₁) =>
      (.err ⟨429, "RATE_LIMIT_EXCEEDED", some e.retryAfter⟩,
       { db with buckets := buckets₁ })
  | (.ok rateLimitStatus, buckets₁) =>
  let db₁ := { db with buckets := buckets₁ }
  match Guards.requireConsentToken db₁.consentTokens req.authHeader nowMs with
  | .error f => (.err f, db₁)
  | .ok tokenPayload =>
  match querySchemaParse req.body with
  | none => (.err ⟨400, "VALIDATION_ERROR", none⟩, db₁)
  | some q =>
  match Guards.ensureConsentAllowed db₁.policies nowMs
      ⟨tokenPayload.sub, [q.category], q.purpose, ["read", "aggregate"]⟩ with
  | .error e => (.err (Guards.consentErrFailure e), db₁)
  | .ok _ =>
  match db₁.dataCategories.find? (fun c => c.key == q.category) with
  | none => (.err ⟨400, "NOT_FOUND", none⟩, db₁)
  | some _dataCategory =>
  let sampleData := (db₁.samples.filter (fun s =>
      s.userId == tokenPayload.sub && s.categoryKey == q.category)).insertionSort
    (fun a b => b.createdAtMs ≤ a.createdAtMs)
  let recordCount : Int := sampleData.length
  match DP.laplaceMechanism sample (recordCount : ℚ) q.epsilon 1 with
  | .error _ => (.err ⟨500, "INTERNAL_ERROR", none⟩, db₁)
  | .ok noisyCount =>
  let countResult : Int := Max.max 0 (round noisyCount)
  let results₀ : AggResults := ⟨some countResult, none, none, none, none⟩
  if sampleData.length = 0 then
    (.ok ⟨results₀, q.epsilon, q.category, q.purpose, tokenPayload.sub,
          countResult, true, none⟩, db₁)
  else
    match runAggs sample sampleData q.epsilon q.aggregations.length
        q.category results₀ q.aggregations with
    | .error _ => (.err ⟨500, "INTERNAL_ERROR", none⟩, db₁)
    | .ok results =>
        (.ok ⟨results, q.epsilon, q.category, q.purpose, tokenPayload.sub,
              countResult, false,
              some ⟨rateLimitStatus.limit, rateLimitStatus.remaining,
                    Int.fdiv rateLimitStatus.resetTime 1000⟩⟩, db₁)

end Pdp

namespace Jwt

/-- Whether all six required-field checks of `verifyConsentToken` pass on
a decoded claims set. -/
def fieldOk (p : JosePayload) : Bool :=
  (truthyStr p.sub).isSome && (truthyStr p.purpose).isSome &&
    (arrVal p.categories).isSome && (arrVal p.scopes).isSome &&
    (truthyNum p.iat).isSome && (truthyNum p.exp).isSome

end Jwt

namespace Pdp

/-- The rate-limit bucket of the current fixed window for the caller had
remaining capacity at the instant of evaluation (no bucket yet, or its
counter below the configured ceiling). -/
def hasCapacity (buckets : List RateLimit.Bucket) (apiKey endpoint : String)
    (nowMs : Int) : Prop :=
  let config := RateLimit.rateLimitConfig endpoint
  let windowStart := Int.fdiv nowMs config.windowMs * config.windowMs
  ∀ b, RateLimit.findBucket buckets apiKey endpoint windowStart = some b →
    b.requestCount < config.requests

/-- Some consent policy row grants the user's category and purpose:
status `GRANTED`, no past expiry, and granted scopes covering `read` and
`aggregate` (the endpoint's fixed required scopes). -/
def policyAuthorizes (policies : List Guards.Policy)
    (userId category purpose : String) (nowMs : Int) : Prop :=
  ∃ p ∈ policies, p.userId = userId ∧ p.categoryKey = category ∧
    p.purpose = purpose ∧ p.status = .GRANTED ∧
    (∀ e, p.expiresAtMs = some e → ¬ e < nowMs) ∧
    p.scopes.contains "read" = true ∧ p.scopes.contains "aggregate" = true

/-- The necessary conditions for a success result of the query endpoint
(claim C1): the caller authenticated, the current rate-limit window had
capacity, the bearer token verified with an existing, unrevoked,
unexpired persisted record, the body validated, and a `GRANTED`,
unexpired policy with scopes covering `{read, aggregate}` exists for the
token's subject, the requested category and the request's purpose. -/
def successPreconditions (db : Db) (req : Req) (nowMs : Int) : Prop :=
  (∃ apiKey apiClient, req.apiKeyHeader = some apiKey ∧
      db.apiClients.find? (fun c => c.apiKey == apiKey) = some apiClient ∧
      hasCapacity db.buckets apiClient.apiKey "/api/pdp/query" nowMs)
  ∧ (∃ hdr payload storedToken, req.authHeader = some hdr ∧
      Jwt.verifyConsentToken hdr.token (Int.fdiv nowMs 1000) = .ok payload ∧
      db.consentTokens.find?
        (fun st => st.jwt == hdr.token && st.userId == payload.sub) =
          some storedToken ∧
      storedToken.revoked = false ∧ ¬ storedToken.expiresAtMs < nowMs ∧
      (∃ q, querySchemaParse req.body = some q ∧
        policyAuthorizes db.policies payload.sub q.category q.purpose nowMs))

/-- A concrete valid bearer token used by the witness scenarios. -/
def scnToken : Jwt.TokenModel :=
  ⟨false, true, true,
   ⟨some (.str "u1"), some (.str "research"), some (.arr ["steps"]),
    some (.arr ["read", "aggregate"]), some (.num 1), some (.num 100)⟩⟩

/-- A concrete store in which every gate of the query endpoint passes for
the witness request: one API client, an empty bucket store, a persisted
unrevoked token record, a `GRANTED` policy with scopes
`[read, aggregate]`, the `steps` category (absent from the per-category
bounds heuristic), and two sample records whose only numeric field is
`8000` in both. -/
def scnDb : Db :=
  { apiClients := [⟨"c1", "Client One", "key1"⟩]
    buckets := []
    consentTokens := [⟨"t1", scnToken, "u1", false, 1000, "research", ["steps"]⟩]
    policies := [⟨"u1", "steps", "Steps", "research", .GRANTED,
                  ["read", "aggregate"], none⟩]
    dataCategories := [⟨"steps", "Steps"⟩]
    samples := [⟨"u1", "steps", [("steps", .num 8000)], 10⟩,
                ⟨"u1", "steps", [("steps", .num 8000)], 20⟩] }

/-- Witness request asking for the default aggregation (`count`). -/
def scnReqCount : Req :=
  { apiKeyHeader := some "key1"
    authHeader := some ⟨2, "Bearer", scnToken⟩
    body := ⟨some "steps", some "research", none, none⟩ }

/-- Witness request asking for the `mean` aggregation over the `steps`
category, whose sample values are all equal. -/
def scnReqMean : Req :=
  { apiKeyHeader := some "key1"
    authHeader := some ⟨2, "Bearer", scnToken⟩
    body := ⟨some "steps", some "research", none, some ["mean"]⟩ }

end Pdp

namespace Pdp

/-- The value the aggregation loop stores under `sum`: JSON `null`
without numeric values, otherwise the true sum plus Laplace noise at
scale `1 / (epsilon / numAggregations)`. -/
def sumExpected (sample : ℚ → ℚ) (sampleData : List Sample) (epsilon : ℚ)
    (numAggregations : Nat) : Option (Option ℚ) :=
  let values := extractNumericValues sampleData
  if values.length > 0 then
    some (some (values.sum + sample (1 / (epsilon / numAggregations))))
  else some none

/-- The value the aggregation loop stores under `min`. -/
def minExpected (sample : ℚ → ℚ) (sampleData : List Sample) (epsilon : ℚ)
    (numAggregations : Nat) : Option (Option ℚ) :=
  let values := extractNumericValues sampleData
  if values.length > 0 then
    some (some (values.min?.getD 0 + sample (1 / (epsilon / numAggregations))))
  else some none

/-- The value the aggregation loop stores under `max`. -/
def maxExpected (sample : ℚ → ℚ) (sampleData : List Sample) (epsilon : ℚ)
    (numAggregations : Nat) : Option (Option ℚ) :=
  let values := extractNumericValues sampleData
  if values.length > 0 then
    some (some (values.max?.getD 0 + sample (1 / (epsilon / numAggregations))))
  else some none

/-- What the aggregation loop stores under `mean`: JSON `null` without
numeric values, otherwise the (successful) result of `dpMean` at the
split budget `epsilon / numAggregations` with the estimated bounds. -/
def meanOutcome (sample : ℚ → ℚ) (sampleData : List Sample) (epsilon : ℚ)
    (numAggregations : Nat) (category : String)
    (field : Option (Option ℚ)) : Prop :=
  let values := extractNumericValues sampleData
  if values.length > 0 then
    ∃ m, DP.dpMean sample values (epsilon / numAggregations)
        (estimateDataBounds values category).lower
        (estimateDataBounds values category).upper = .ok m ∧
      field = some (some m)
  else field = some none

end Pdp

/-! ## Theorems -/

/-- C4: `dpMean` (the spec's `privateMean`) fails with the empty-input
error on an empty list, with an invalid-parameter error when
`epsilon ≤ 0` or `minValue ≥ maxValue`, and otherwise returns
`laplaceMechanism(trueMean, epsilon, (maxValue - minValue) / n)`, which
succeeds with the true mean plus the sampled noise at scale
`sensitivity / epsilon`. -/
theorem dpMean_matches_spec (sample : ℚ → ℚ) (values : List ℚ)
    (epsilon minValue maxValue : ℚ) :
    (values = [] →
      DP.dpMean sample values epsilon minValue maxValue = .error .emptyArray)
    ∧ (values ≠ [] → epsilon ≤ 0 →
      DP.dpMean sample values epsilon minValue maxValue =
        .error .epsilonMustBePositive)
    ∧ (values ≠ [] → 0 < epsilon → minValue ≥ maxValue →
      DP.dpMean sample values epsilon minValue maxValue = .error .minNotLtMax)
    ∧ (values ≠ [] → 0 < epsilon → minValue < maxValue →
      DP.dpMean sample values epsilon minValue maxValue =
        DP.laplaceMechanism sample (values.sum / values.length) epsilon
          ((maxValue - minValue) / values.length)
      ∧ DP.dpMean sample values epsilon minValue maxValue =
        .ok (values.sum / values.length +
          sample (((maxValue - minValue) / values.length) / epsilon))) := by
  refine ⟨?_, ?_, ?_, ?_⟩
  · rintro rfl
    simp [DP.dpMean]
  · intro hne hle
    have hlen : values.length ≠ 0 := by simpa using hne
    simp [DP.dpMean, hlen, hle]
  · intro hne hpos hge
    have hlen : values.length ≠ 0 := by simpa using hne
    simp [DP.dpMean, hlen, not_le.mpr hpos, hge]
  · intro hne hpos hlt
    have hlen : values.length ≠ 0 := by simpa using hne
    have hlenpos : (0 : ℚ) < (values.length : ℚ) := by
      exact_mod_cast Nat.pos_of_ne_zero hlen
    have hnle : ¬ epsilon ≤ 0 := not_le.mpr hpos
    have hnge : ¬ minValue ≥ maxValue := not_le.mpr hlt
    have hsens : 0 < (maxValue - minValue) / (values.length : ℚ) :=
      div_pos (by linarith) hlenpos
    refine ⟨?_, ?_⟩
    · simp [DP.dpMean, hlen, hnle, hnge]
    · simp [DP.dpMean, DP.laplaceMechanism, hlen, hnle, hnge,
        not_le.mpr hsens]

/-- Witness for C4 at the spec's own example inputs:
`privateMean([], 1.0, 0, 100)` fails with the empty-input error and
`privateMean([1, 2], 1.0, 100, 0)` with the bounds error. -/
theorem dpMean_matches_spec_witness :
    DP.dpMean (fun _ => 0) [] 1 0 100 = .error .emptyArray ∧
    DP.dpMean (fun _ => 0) [1, 2] 1 100 0 = .error .minNotLtMax :=
  ⟨(dpMean_matches_spec (fun _ => 0) [] 1 0 100).1 rfl,
   (dpMean_matches_spec (fun _ => 0) [1, 2] 1 100 0).2.2.1 (by simp)
     (by norm_num) (by norm_num)⟩

/-- C7: with a failing counter store, `checkRateLimit` fails open for
every caller, endpoint and time: it returns `allowed = true` with the
full configured limit as `remaining` and leaves the store unchanged,
rather than raising an error or denying the request. -/
theorem rateLimit_fails_open (buckets : List RateLimit.Bucket)
    (apiKey endpoint : String) (nowMs : Int) :
    RateLimit.checkRateLimit false buckets apiKey endpoint nowMs =
      (.ok ⟨true, (RateLimit.rateLimitConfig endpoint).requests,
            (RateLimit.rateLimitConfig endpoint).requests,
            Int.fdiv nowMs (RateLimit.rateLimitConfig endpoint).windowMs *
                (RateLimit.rateLimitConfig endpoint).windowMs +
              (RateLimit.rateLimitConfig endpoint).windowMs,
            none⟩,
       buckets) := by
  simp [RateLimit.checkRateLimit, RateLimit.checkRateLimitWith]

/-- C8 counterexample: `epsilon = 1/200 = 0.005` lies in the claimed
accepted range `(0, 10]`, yet `querySchema` (whose `epsilon` rule is
`z.number().min(0.01).max(10)`) rejects the request body carrying it. -/
theorem querySchema_rejects_small_epsilon :
    (0 : ℚ) < 1/200 ∧ (1/200 : ℚ) ≤ 10 ∧
    Pdp.querySchemaParse ⟨some "health", some "research", some (1/200), none⟩ =
      none := by
  refine ⟨by norm_num, by norm_num, ?_⟩
  have h : ((200 : ℚ)⁻¹ < 100⁻¹ ∨ (10 : ℚ) < 200⁻¹) := by norm_num
  simp [Pdp.querySchemaParse, h]

/-- C8 amended: the endpoint accepts epsilon exactly in `[0.01, 10]`,
defaulting to `1.0` when omitted, and rejects values below `0.01` or
above `10` through schema validation; the advisory-only treatment of
small and large epsilon exists in the standalone `validateEpsilon`
utility (which never rejects positive values), but the endpoint does not
call it. -/
theorem querySchema_epsilon_range (body : Pdp.RawBody)
    (category purpose : String) (aggs : List Pdp.Agg)
    (hc : body.category = some category) (hc0 : category ≠ "")
    (hp : body.purpose = some purpose) (hp0 : purpose ≠ "")
    (ha : (match body.aggregations with
           | none => some [Pdp.Agg.count]
           | some l => Pdp.parseAggs l) = some aggs) :
    (body.epsilon = none →
      Pdp.querySchemaParse body = some ⟨category, purpose, 1, aggs⟩)
    ∧ (∀ e, body.epsilon = some e → 1/100 ≤ e → e ≤ 10 →
      Pdp.querySchemaParse body = some ⟨category, purpose, e, aggs⟩)
    ∧ (∀ e, body.epsilon = some e → (e < 1/100 ∨ 10 < e) →
      Pdp.querySchemaParse body = none)
    ∧ (∀ e : ℚ, 0 < e →
      DP.validateEpsilon e = .ok ⟨decide (e > 10), decide (e < 1/100)⟩)
    ∧ (∀ e : ℚ, e ≤ 0 →
      DP.validateEpsilon e = .error .epsilonMustBePositive) := by
  refine ⟨?_, ?_, ?_, ?_, ?_⟩
  · intro he
    simp [Pdp.querySchemaParse, hc, hc0, hp, hp0, he, ha]
  · intro e he h1 h2
    have hin : ¬ (e < (100 : ℚ)⁻¹ ∨ 10 < e) := by
      push_neg
      constructor
      · rw [inv_eq_one_div]
        exact h1
      · exact h2
    simp [Pdp.querySchemaParse, hc, hc0, hp, hp0, he, hin, ha]
  · intro e he hout
    have hout₁ : (e < (100 : ℚ)⁻¹ ∨ 10 < e) := by
      rcases hout with h | h
      · exact Or.inl (by rw [inv_eq_one_div]; exact h)
      · exact Or.inr h
    simp [Pdp.querySchemaParse, hc, hc0, hp, hp0, he, hout₁]
  · intro e hpos
    simp [DP.validateEpsilon, not_le.mpr hpos]
  · intro e hle
    simp [DP.validateEpsilon, hle]

/-- Witness for C8's amended claim: an omitted epsilon defaults to `1.0`,
`epsilon = 0.005` is rejected by the schema, and `validateEpsilon 0.005`
returns successfully with only the small-epsilon advisory set. -/
theorem querySchema_epsilon_range_witness :
    Pdp.querySchemaParse ⟨some "h", some "p", none, none⟩ =
      some ⟨"h", "p", 1, [Pdp.Agg.count]⟩ ∧
    Pdp.querySchemaParse ⟨some "h", some "p", some (1/200), none⟩ = none ∧
    DP.validateEpsilon (1/200) = .ok ⟨false, true⟩ := by
  refine ⟨(querySchema_epsilon_range _ "h" "p" [Pdp.Agg.count] rfl (by decide)
      rfl (by decide) rfl).1 rfl,
    (querySchema_epsilon_range _ "h" "p" [Pdp.Agg.count] rfl (by decide)
      rfl (by decide) rfl).2.2.1 (1/200) rfl (by norm_num), ?_⟩
  have h := (querySchema_epsilon_range (Pdp.RawBody.mk (some "h") (some "p")
      none none) "h" "p" [Pdp.Agg.count] rfl (by decide) rfl (by decide)
      rfl).2.2.2.1 (1/200) (by norm_num)
  rw [h]
  norm_num

/-- C3: for a matching `GRANTED`, unexpired policy reaching the scope
check, `ensureConsentAllowed` fails with `InsufficientScopes` naming
exactly the missing scopes iff the required scopes are not all among the
policy's granted scopes: a required scope outside the granted set is
always reported missing, a granted one never is, and with all scopes
granted the check succeeds. -/
theorem ensureConsent_scope_check (p : Guards.Policy)
    (requiredScopes : List String) (nowMs : Int)
    (hu : p.userId ≠ "") (hp : p.purpose ≠ "") (hg : p.status = .GRANTED)
    (he : ∀ e, p.expiresAtMs = some e → ¬ e < nowMs) :
    (Guards.ensureConsentAllowed [p] nowMs
        ⟨p.userId, [p.categoryKey], p.purpose, requiredScopes⟩ =
      .error (.insufficientScopes p.categoryName
        (requiredScopes.filter (fun s => ¬ p.scopes.contains s))) ↔
      ¬ (∀ s ∈ requiredScopes, s ∈ p.scopes))
    ∧ (∀ s, s ∈ requiredScopes.filter (fun s => ¬ p.scopes.contains s) ↔
        s ∈ requiredScopes ∧ s ∉ p.scopes)
    ∧ ((∀ s ∈ requiredScopes, s ∈ p.scopes) →
      Guards.ensureConsentAllowed [p] nowMs
        ⟨p.userId, [p.categoryKey], p.purpose, requiredScopes⟩ = .ok ()) := by
  have hmem : ∀ s, (p.scopes.contains s = true) ↔ s ∈ p.scopes := by
    intro s
    exact List.elem_iff
  have hfilter : ∀ s, s ∈ requiredScopes.filter (fun s => ¬ p.scopes.contains s) ↔
      s ∈ requiredScopes ∧ s ∉ p.scopes := by
    intro s
    rw [List.mem_filter]
    simp [hmem]
  have hnil : (requiredScopes.filter (fun s => ¬ p.scopes.contains s) = []) ↔
      ∀ s ∈ requiredScopes, s ∈ p.scopes := by
    rw [List.filter_eq_nil_iff]
    simp [hmem]
  have hmain : Guards.ensureConsentAllowed [p] nowMs
      ⟨p.userId, [p.categoryKey], p.purpose, requiredScopes⟩ =
      Guards.checkPolicies nowMs requiredScopes [p] := by
    simp [Guards.ensureConsentAllowed, hu, hp]
  have hexpcond : (match p.expiresAtMs with
      | some e => decide (e < nowMs)
      | none => false) = false := by
    rcases hx : p.expiresAtMs with _ | e
    · simp
    · simpa using he e hx
  have hstep : Guards.checkPolicies nowMs requiredScopes [p] =
      if requiredScopes.filter (fun s => ¬ p.scopes.contains s) ≠ [] then
        .error (.insufficientScopes p.categoryName
          (requiredScopes.filter (fun s => ¬ p.scopes.contains s)))
      else .ok () := by
    conv_lhs => rw [Guards.checkPolicies]
    rw [if_neg (by simp [hg]), if_neg (by simp [hg]), if_neg (by simp [hg]),
      if_neg (by rw [hexpcond]; simp)]
    rfl
  refine ⟨?_, hfilter, ?_⟩
  · rw [hmain, hstep]
    by_cases hm : requiredScopes.filter (fun s => ¬ p.scopes.contains s) = []
    · rw [if_neg (not_not_intro hm)]
      constructor
      · intro habs
        exact absurd habs (by simp)
      · intro habs
        exact absurd (hnil.mp hm) habs
    · rw [if_pos hm]
      exact ⟨fun _ hall => hm (hnil.mpr hall), fun _ => rfl⟩
  · intro hall
    rw [hmain, hstep, if_neg (not_not_intro (hnil.mpr hall))]

/-- Witness for C3 at the spec's own example: a `GRANTED` policy with
scopes `[read, aggregate]` and required scope `[write]` fails with
`InsufficientScopes` naming exactly `write`; required `[read]` succeeds. -/
theorem ensureConsent_scope_check_witness :
    Guards.ensureConsentAllowed
        [⟨"u1", "health", "Health", "research", .GRANTED,
          ["read", "aggregate"], none⟩] 0
        ⟨"u1", ["health"], "research", ["write"]⟩ =
      .error (.insufficientScopes "Health" ["write"]) ∧
    Guards.ensureConsentAllowed
        [⟨"u1", "health", "Health", "research", .GRANTED,
          ["read", "aggregate"], none⟩] 0
        ⟨"u1", ["health"], "research", ["read"]⟩ = .ok () := by
  constructor
  · have h := (ensureConsent_scope_check
      ⟨"u1", "health", "Health", "research", .GRANTED, ["read", "aggregate"], none⟩
      ["write"] 0 (by decide) (by decide) rfl (by intro e he; cases he)).1
    have hne : ¬ (∀ s ∈ ["write"], s ∈ ["read", "aggregate"]) := by decide
    have hfil : (["write"].filter
        (fun s => ¬ (["read", "aggregate"].contains s))) = ["write"] := by decide
    rw [hfil] at h
    exact h.mpr hne
  · exact (ensureConsent_scope_check
      ⟨"u1", "health", "Health", "research", .GRANTED, ["read", "aggregate"], none⟩
      ["read"] 0 (by decide) (by decide) rfl (by intro e he; cases he)).2.2
      (by decide)

/-- C6: with a working store, `checkRateLimit`'s transaction creates the
current window's bucket with count 1 when absent (allowed, remaining
`limit - 1`), denies without incrementing when a pre-existing bucket is
at or above the ceiling (throwing with
`retryAfter = ceil((resetTime - now) / 1000)`), and otherwise increments
and allows with `remaining = limit - updatedCount`; concretely, with a
ceiling of 2 in a 60s window, three sequential calls give remaining 1,
then 0, then a denial with a positive `retryAfter` of 60 seconds. -/
theorem checkRateLimit_fixed_window (config : RateLimit.RateConfig)
    (buckets : List RateLimit.Bucket) (apiKey endpoint : String) (nowMs : Int) :
    (RateLimit.findBucket buckets apiKey endpoint
        (Int.fdiv nowMs config.windowMs * config.windowMs) = none →
      RateLimit.checkRateLimitWith config true buckets apiKey endpoint nowMs =
        (.ok ⟨true, config.requests, config.requests - 1,
              Int.fdiv nowMs config.windowMs * config.windowMs + config.windowMs,
              none⟩,
         buckets ++ [⟨apiKey, endpoint,
              Int.fdiv nowMs config.windowMs * config.windowMs, 1⟩]))
    ∧ (∀ b, RateLimit.findBucket buckets apiKey endpoint
          (Int.fdiv nowMs config.windowMs * config.windowMs) = some b →
        b.requestCount ≥ config.requests →
        RateLimit.checkRateLimitWith config true buckets apiKey endpoint nowMs =
          (.error ⟨config.requests, 0,
                Int.fdiv nowMs config.windowMs * config.windowMs + config.windowMs,
                ⌈((Int.fdiv nowMs config.windowMs * config.windowMs +
                    config.windowMs - nowMs : ℤ) : ℚ) / 1000⌉⟩,
           buckets))
    ∧ (∀ b, RateLimit.findBucket buckets apiKey endpoint
          (Int.fdiv nowMs config.windowMs * config.windowMs) = some b →
        b.requestCount < config.requests →
        RateLimit.checkRateLimitWith config true buckets apiKey endpoint nowMs =
          (.ok ⟨true, config.requests, config.requests - (b.requestCount + 1),
                Int.fdiv nowMs config.windowMs * config.windowMs + config.windowMs,
                none⟩,
           buckets.map (fun x =>
             if x.apiKey == apiKey && x.endpoint == endpoint &&
                 x.windowStart ==
                   Int.fdiv nowMs config.windowMs * config.windowMs then
               { x with requestCount := x.requestCount + 1 }
             else x)))
    ∧ (RateLimit.checkRateLimitWith ⟨2, 60000⟩ true [] "k" "/e" 0 =
        (.ok ⟨true, 2, 1, 60000, none⟩, [⟨"k", "/e", 0, 1⟩])
      ∧ RateLimit.checkRateLimitWith ⟨2, 60000⟩ true [⟨"k", "/e", 0, 1⟩]
          "k" "/e" 0 =
        (.ok ⟨true, 2, 0, 60000, none⟩, [⟨"k", "/e", 0, 2⟩])
      ∧ RateLimit.checkRateLimitWith ⟨2, 60000⟩ true [⟨"k", "/e", 0, 2⟩]
          "k" "/e" 0 =
        (.error ⟨2, 0, 60000, 60⟩, [⟨"k", "/e", 0, 2⟩])
      ∧ (0 : ℤ) < 60) := by
  refine ⟨?_, ?_, ?_, ?_, ?_, ?_, by norm_num⟩
  · intro hfind
    simp [RateLimit.checkRateLimitWith, hfind]
  · intro b hfind hge
    simp [RateLimit.checkRateLimitWith, hfind, hge]
  · intro b hfind hlt
    simp [RateLimit.checkRateLimitWith, hfind, not_le.mpr hlt, hlt]
  · simp [RateLimit.checkRateLimitWith, RateLimit.findBucket, List.find?]
  · simp [RateLimit.checkRateLimitWith, RateLimit.findBucket, List.find?]
  · simp [RateLimit.checkRateLimitWith, RateLimit.findBucket, List.find?]
    norm_num

/-- Witness for C6: the first call on an empty store creates the bucket
and allows with remaining `limit - 1`. -/
theorem checkRateLimit_fixed_window_witness :
    RateLimit.checkRateLimitWith ⟨5, 60000⟩ true [] "a" "/x" 7 =
      (.ok ⟨true, 5, 5 - 1, Int.fdiv 7 60000 * 60000 + 60000, none⟩,
       [⟨"a", "/x", Int.fdiv 7 60000 * 60000, 1⟩]) :=
  (checkRateLimit_fixed_window ⟨5, 60000⟩ [] "a" "/x" 7).1 rfl

theorem decNat_encNat (n : Nat) (rest : List Char) :
    Jwt.decNat (Jwt.encNat n ++ rest) = some (n, rest) := by
  induction n with
  | zero => simp [Jwt.encNat, Jwt.decNat]
  | succ k ih =>
    have h : Jwt.encNat (k + 1) ++ rest = 'a' :: (Jwt.encNat k ++ rest) := by
      simp [Jwt.encNat, List.replicate_succ]
    rw [h]
    simp [Jwt.decNat, ih]

theorem decCount_flat (enc : α → List Char)
    (dec : List Char → Option (α × List Char))
    (hrt : ∀ x rest, dec (enc x ++ rest) = some (x, rest)) (l : List α) :
    ∀ rest : List Char,
      Jwt.decCount dec l.length
        (l.foldr (fun x acc => enc x ++ acc) [] ++ rest) = some (l, rest) := by
  induction l with
  | nil =>
    intro rest
    simp [Jwt.decCount]
  | cons x xs ih =>
    intro rest
    have h : List.foldr (fun x acc => enc x ++ acc) [] (x :: xs) ++ rest =
        enc x ++ (List.foldr (fun x acc => enc x ++ acc) [] xs ++ rest) := by
      simp
    rw [List.length_cons, h]
    simp [Jwt.decCount, hrt, ih rest]

theorem decListBy_encListBy (enc : α → List Char)
    (dec : List Char → Option (α × List Char))
    (hrt : ∀ x rest, dec (enc x ++ rest) = some (x, rest))
    (l : List α) (rest : List Char) :
    Jwt.decListBy dec (Jwt.encListBy enc l ++ rest) = some (l, rest) := by
  unfold Jwt.encListBy Jwt.decListBy
  rw [List.append_assoc, decNat_encNat]
  simp [decCount_flat enc dec hrt l rest]

theorem decStr_encStr (s : String) (rest : List Char) :
    Jwt.decStr (Jwt.encStr s ++ rest) = some (s, rest) := by
  unfold Jwt.encStr Jwt.decStr
  rw [decListBy_encListBy Jwt.encNat Jwt.decNat decNat_encNat]
  have h : (s.data.map Char.toNat).map Char.ofNat = s.data := by
    rw [List.map_map]
    have hco : Char.ofNat ∘ Char.toNat = id := funext Char.ofNat_toNat
    rw [hco, List.map_id]
  simp [h]

theorem decInt_encInt (i : Int) (rest : List Char) :
    Jwt.decInt (Jwt.encInt i ++ rest) = some (i, rest) := by
  unfold Jwt.encInt Jwt.decInt
  rw [List.append_assoc, decNat_encNat]
  by_cases h : i < 0
  · simp [h, decNat_encNat, abs_of_neg h]
  · simp [h, decNat_encNat, abs_of_nonneg (not_lt.mp h)]

theorem decSeg_encSeg (p : Jwt.ValidPayload) :
    Jwt.decSeg (Jwt.encSeg p) = some p := by
  have h1 : Jwt.encSeg p =
      Jwt.encStr p.sub ++ (Jwt.encStr p.purpose ++
        (Jwt.encListBy Jwt.encStr p.categories ++
          (Jwt.encListBy Jwt.encStr p.scopes ++
            (Jwt.encInt p.iat ++ (Jwt.encInt p.exp ++ []))))) := by
    simp [Jwt.encSeg]
  have hnil : Jwt.decInt (Jwt.encInt p.exp) = some (p.exp, []) := by
    simpa using decInt_encInt p.exp []
  rw [h1]
  simp [Jwt.decSeg, decStr_encStr,
    decListBy_encListBy Jwt.encStr Jwt.decStr decStr_encStr, decInt_encInt,
    hnil]

theorem mem_encNat {c : Char} (n : Nat) (h : c ∈ Jwt.encNat n) :
    c = 'a' ∨ c = 'b' := by
  unfold Jwt.encNat at h
  rcases List.mem_append.mp h with h | h
  · exact Or.inl (List.eq_of_mem_replicate h)
  · simp at h
    exact Or.inr h

theorem dot_nin_encNat (n : Nat) : '.' ∉ Jwt.encNat n := by
  intro h
  rcases mem_encNat n h with h | h <;> exact absurd h (by decide)

theorem dot_nin_flat (enc : α → List Char) (h : ∀ x, '.' ∉ enc x)
    (l : List α) : '.' ∉ l.foldr (fun x acc => enc x ++ acc) [] := by
  induction l with
  | nil => simp
  | cons x xs ih =>
    simp only [List.foldr_cons, List.mem_append]
    rintro (hx | hx)
    · exact h x hx
    · exact ih hx

theorem dot_nin_encListBy (enc : α → List Char) (h : ∀ x, '.' ∉ enc x)
    (l : List α) : '.' ∉ Jwt.encListBy enc l := by
  unfold Jwt.encListBy
  rw [List.mem_append]
  rintro (hx | hx)
  · exact dot_nin_encNat _ hx
  · exact dot_nin_flat enc h l hx

theorem dot_nin_encStr (s : String) : '.' ∉ Jwt.encStr s :=
  dot_nin_encListBy Jwt.encNat (fun _ => dot_nin_encNat _) _

theorem dot_nin_encInt (i : Int) : '.' ∉ Jwt.encInt i := by
  unfold Jwt.encInt
  rw [List.mem_append]
  rintro (hx | hx) <;> exact dot_nin_encNat _ hx

theorem dot_nin_encSeg (p : Jwt.ValidPayload) : '.' ∉ Jwt.encSeg p := by
  unfold Jwt.encSeg
  simp only [List.mem_append]
  rintro (((((hx | hx) | hx) | hx) | hx) | hx)
  · exact dot_nin_encStr _ hx
  · exact dot_nin_encStr _ hx
  · exact dot_nin_encListBy Jwt.encStr (fun _ => dot_nin_encStr _) _ hx
  · exact dot_nin_encListBy Jwt.encStr (fun _ => dot_nin_encStr _) _ hx
  · exact dot_nin_encInt _ hx
  · exact dot_nin_encInt _ hx

theorem splitDots_no_dot (a : List Char) (h : '.' ∉ a) :
    Jwt.splitDots a = [a] := by
  induction a with
  | nil => rfl
  | cons c rest ih =>
    have hc : ¬ c = '.' := fun hh => h (hh ▸ List.mem_cons_self c rest)
    have hr : '.' ∉ rest := fun hh => h (List.mem_cons_of_mem c hh)
    simp [Jwt.splitDots, hc, ih hr]

theorem splitDots_append (a t : List Char) (h : '.' ∉ a) :
    Jwt.splitDots (a ++ '.' :: t) = a :: Jwt.splitDots t := by
  induction a with
  | nil => simp [Jwt.splitDots]
  | cons c rest ih =>
    have hc : ¬ c = '.' := fun hh => h (hh ▸ List.mem_cons_self c rest)
    have hr : '.' ∉ rest := fun hh => h (List.mem_cons_of_mem c hh)
    simp [Jwt.splitDots, hc, ih hr]

theorem encSeg_ne_nil (p : Jwt.ValidPayload) : Jwt.encSeg p ≠ [] := by
  simp [Jwt.encSeg, Jwt.encStr, Jwt.encListBy, Jwt.encNat]

/-- C9: decoding a token produced by `issueConsentToken` always succeeds
and returns the claims that were passed in: the payload's `sub`,
`purpose`, `categories` and `scopes` are exactly the issue parameters
(and `iat`, `exp` the issue-time values). -/
theorem issue_decode_round_trip (params : Jwt.IssueParams) (nowMs : Int) :
    Jwt.decodeConsentToken (Jwt.issueConsentToken params nowMs).1 =
      some ⟨params.userId, params.purpose, params.categories, params.scopes,
            Int.fdiv nowMs 1000, Int.fdiv nowMs 1000 + params.ttlMinutes * 60⟩ := by
  have htok : (Jwt.issueConsentToken params nowMs).1 =
      Jwt.headerSeg ++ '.' ::
        (Jwt.encSeg ⟨params.userId, params.purpose, params.categories,
            params.scopes, Int.fdiv nowMs 1000,
            Int.fdiv nowMs 1000 + params.ttlMinutes * 60⟩ ++
          '.' :: Jwt.sigSeg) := rfl
  have hsplit : Jwt.splitDots (Jwt.issueConsentToken params nowMs).1 =
      [Jwt.headerSeg,
       Jwt.encSeg ⟨params.userId, params.purpose, params.categories,
           params.scopes, Int.fdiv nowMs 1000,
           Int.fdiv nowMs 1000 + params.ttlMinutes * 60⟩,
       Jwt.sigSeg] := by
    rw [htok,
      splitDots_append Jwt.headerSeg _ (dot_nin_encStr "HS256"),
      splitDots_append _ _ (dot_nin_encSeg _),
      splitDots_no_dot Jwt.sigSeg (dot_nin_encNat 0)]
  rw [Jwt.decodeConsentToken, hsplit]
  simp [encSeg_ne_nil, decSeg_encSeg]

theorem verify_fields_outcome (t : Jwt.TokenModel) (nowSec : Int)
    (he : t.emptyStr = false) (p : Jwt.JosePayload)
    (hjv : Jwt.jwtVerify t nowSec = .ok p) :
    (Jwt.fieldOk p = true → ∃ vp, Jwt.verifyConsentToken t nowSec = .ok vp)
    ∧ (Jwt.fieldOk p = false →
      Jwt.verifyConsentToken t nowSec = .error .INVALID) := by
  rcases h1 : Jwt.truthyStr p.sub with _ | sub
  · constructor
    · intro hf
      simp [Jwt.fieldOk, h1] at hf
    · intro _
      simp [Jwt.verifyConsentToken, he, hjv, h1]
  rcases h2 : Jwt.truthyStr p.purpose with _ | purpose
  · constructor
    · intro hf
      simp [Jwt.fieldOk, h2] at hf
    · intro _
      simp [Jwt.verifyConsentToken, he, hjv, h1, h2]
  rcases h3 : Jwt.arrVal p.categories with _ | categories
  · constructor
    · intro hf
      simp [Jwt.fieldOk, h3] at hf
    · intro _
      simp [Jwt.verifyConsentToken, he, hjv, h1, h2, h3]
  rcases h4 : Jwt.arrVal p.scopes with _ | scopes
  · constructor
    · intro hf
      simp [Jwt.fieldOk, h4] at hf
    · intro _
      simp [Jwt.verifyConsentToken, he, hjv, h1, h2, h3, h4]
  rcases h5 : Jwt.truthyNum p.iat with _ | iat
  · constructor
    · intro hf
      simp [Jwt.fieldOk, h5] at hf
    · intro _
      simp [Jwt.verifyConsentToken, he, hjv, h1, h2, h3, h4, h5]
  rcases h6 : Jwt.truthyNum p.exp with _ | exp
  · constructor
    · intro hf
      simp [Jwt.fieldOk, h6] at hf
    · intro _
      simp [Jwt.verifyConsentToken, he, hjv, h1, h2, h3, h4, h5, h6]
  constructor
  · intro _
    exact ⟨⟨sub, purpose, categories, scopes, iat, exp⟩,
      by simp [Jwt.verifyConsentToken, he, hjv, h1, h2, h3, h4, h5, h6]⟩
  · intro hf
    simp [Jwt.fieldOk, h1, h2, h3, h4, h5, h6] at hf

/-- C2 counterexample: the token abstracted by
`⟨emptyStr := false, threeSegments := false, ...⟩` (for instance the raw
string "abc": non-empty but not three dot-separated segments) fails
`verifyConsentToken` with `VERIFICATION_FAILED` — the jose error
"Invalid Compact JWS" contains neither "exp" nor "signature" — and not
with `MALFORMED` as the claim requires for structurally malformed
tokens. -/
theorem verify_malformed_counterexample :
    (Jwt.verifyConsentToken
        ⟨false, false, true, ⟨none, none, none, none, none, none⟩⟩ 0 =
      .error .VERIFICATION_FAILED)
    ∧ (Jwt.verifyConsentToken
        ⟨false, false, true, ⟨none, none, none, none, none, none⟩⟩ 0 ≠
      .error .MALFORMED) := by
  constructor
  · simp [Jwt.verifyConsentToken, Jwt.jwtVerify, Jwt.JoseErr.msgHasExp,
      Jwt.JoseErr.msgHasSignature]
  · simp [Jwt.verifyConsentToken, Jwt.jwtVerify, Jwt.JoseErr.msgHasExp,
      Jwt.JoseErr.msgHasSignature]

/-- C2 amended: `verifyConsentToken`'s outcome is deterministic and
exhaustively one of the four codes, but the partition differs from the
claim on structurally malformed tokens: `MALFORMED` exactly when the
token string is empty; for a non-empty token, `EXPIRED` exactly when
`jwtVerify` throws an error whose message mentions "exp" (a passed *or
non-numeric* `exp` claim), `VERIFICATION_FAILED` exactly when it throws
any other error (not three segments — "Invalid Compact JWS" —, a bad
signature, or a present non-numeric `iat`), `INVALID` exactly when
`jwtVerify` succeeds but a required field is missing, mistyped, empty or
zero, and success exactly when `jwtVerify` succeeds with all field
checks passing. -/
theorem verify_error_taxonomy (t : Jwt.TokenModel) (nowSec : Int) :
    (Jwt.verifyConsentToken t nowSec = .error .MALFORMED ↔ t.emptyStr = true)
    ∧ (t.emptyStr = false →
      (Jwt.verifyConsentToken t nowSec = .error .EXPIRED ↔
        ∃ m, Jwt.jwtVerify t nowSec = .error m ∧ m.msgHasExp = true))
    ∧ (t.emptyStr = false →
      (Jwt.verifyConsentToken t nowSec = .error .VERIFICATION_FAILED ↔
        ∃ m, Jwt.jwtVerify t nowSec = .error m ∧ m.msgHasExp = false))
    ∧ (t.emptyStr = false →
      (Jwt.verifyConsentToken t nowSec = .error .INVALID ↔
        ∃ p, Jwt.jwtVerify t nowSec = .ok p ∧ Jwt.fieldOk p = false))
    ∧ (t.emptyStr = false →
      ((∃ vp, Jwt.verifyConsentToken t nowSec = .ok vp) ↔
        ∃ p, Jwt.jwtVerify t nowSec = .ok p ∧ Jwt.fieldOk p = true))
    ∧ (t.threeSegments = false →
      Jwt.jwtVerify t nowSec = .error .invalidCompactJWS)
    ∧ (t.threeSegments = true → t.sigOk = false →
      Jwt.jwtVerify t nowSec = .error .signatureVerificationFailed) := by
  have hseg : t.threeSegments = false →
      Jwt.jwtVerify t nowSec = .error .invalidCompactJWS := by
    intro h
    simp [Jwt.jwtVerify, h]
  have hsig : t.threeSegments = true → t.sigOk = false →
      Jwt.jwtVerify t nowSec = .error .signatureVerificationFailed := by
    intro h1 h2
    simp [Jwt.jwtVerify, h1, h2]
  by_cases he : t.emptyStr
  · have hv : Jwt.verifyConsentToken t nowSec = .error .MALFORMED := by
      simp [Jwt.verifyConsentToken, he]
    refine ⟨by simp [hv, he], ?_, ?_, ?_, ?_, hseg, hsig⟩ <;>
      · intro hfe
        rw [he] at hfe
        cases hfe
  · have he' : t.emptyStr = false := by simpa using he
    rcases hjv : Jwt.jwtVerify t nowSec with m | p
    · have hv : Jwt.verifyConsentToken t nowSec =
          if m.msgHasExp then .error .EXPIRED
          else .error .VERIFICATION_FAILED := by
        simp [Jwt.verifyConsentToken, he', hjv]
      have hseg' : t.threeSegments = false →
          Except.error (ε := Jwt.JoseErr) (α := Jwt.JosePayload) m =
            .error .invalidCompactJWS := by
        intro h
        rw [← hjv]
        exact hseg h
      have hsig' : t.threeSegments = true → t.sigOk = false →
          Except.error (ε := Jwt.JoseErr) (α := Jwt.JosePayload) m =
            .error .signatureVerificationFailed := by
        intro h1 h2
        rw [← hjv]
        exact hsig h1 h2
      by_cases hm : m.msgHasExp
      · refine ⟨by simp [hv, hm, he'], ?_, ?_, ?_, ?_, hseg', hsig'⟩
        · intro _
          rw [hv, if_pos hm]
          exact ⟨fun _ => ⟨m, rfl, hm⟩, fun _ => rfl⟩
        · intro _
          rw [hv, if_pos hm]
          constructor
          · intro habs
            exact absurd habs (by simp)
          · rintro ⟨m₁, hm₁, hmf⟩
            injection hm₁ with hh
            subst hh
            rw [hm] at hmf
            simp at hmf
        · intro _
          rw [hv, if_pos hm]
          constructor
          · intro habs
            exact absurd habs (by simp)
          · rintro ⟨p₁, hp₁, _⟩
            simp at hp₁
        · intro _
          rw [hv, if_pos hm]
          constructor
          · rintro ⟨vp, hvp⟩
            simp at hvp
          · rintro ⟨p₁, hp₁, _⟩
            simp at hp₁
      · have hm' : m.msgHasExp = false := by simpa using hm
        refine ⟨by simp [hv, hm', he'], ?_, ?_, ?_, ?_, hseg', hsig'⟩
        · intro _
          rw [hv, if_neg hm]
          constructor
          · intro habs
            exact absurd habs (by simp)
          · rintro ⟨m₁, hm₁, hmf⟩
            injection hm₁ with hh
            subst hh
            rw [hm'] at hmf
            simp at hmf
        · intro _
          rw [hv, if_neg hm]
          exact ⟨fun _ => ⟨m, rfl, hm'⟩, fun _ => rfl⟩
        · intro _
          rw [hv, if_neg hm]
          constructor
          · intro habs
            exact absurd habs (by simp)
          · rintro ⟨p₁, hp₁, _⟩
            simp at hp₁
        · intro _
          rw [hv, if_neg hm]
          constructor
          · rintro ⟨vp, hvp⟩
            simp at hvp
          · rintro ⟨p₁, hp₁, _⟩
            simp at hp₁
    · have hfo := verify_fields_outcome t nowSec he' p hjv
      have hseg' : t.threeSegments = false →
          Except.ok (ε := Jwt.JoseErr) p = .error .invalidCompactJWS := by
        intro h
        rw [← hjv]
        exact hseg h
      have hsig' : t.threeSegments = true → t.sigOk = false →
          Except.ok (ε := Jwt.JoseErr) p = .error .signatureVerificationFailed := by
        intro h1 h2
        rw [← hjv]
        exact hsig h1 h2
      by_cases hf : Jwt.fieldOk p
      · obtain ⟨vp, hvp⟩ := hfo.1 hf
        refine ⟨by simp [hvp, he'], ?_, ?_, ?_, ?_, hseg', hsig'⟩
        · intro _
          rw [hvp]
          constructor
          · intro habs
            exact absurd habs (by simp)
          · rintro ⟨m₁, hm₁, _⟩
            simp at hm₁
        · intro _
          rw [hvp]
          constructor
          · intro habs
            exact absurd habs (by simp)
          · rintro ⟨m₁, hm₁, _⟩
            simp at hm₁
        · intro _
          rw [hvp]
          constructor
          · intro habs
            exact absurd habs (by simp)
          · rintro ⟨p₁, hp₁, hpf⟩
            injection hp₁ with hh
            subst hh
            rw [hf] at hpf
            simp at hpf
        · intro _
          exact ⟨fun _ => ⟨p, rfl, hf⟩, fun _ => ⟨vp, hvp⟩⟩
      · have hf' : Jwt.fieldOk p = false := by simpa using hf
        have hv := hfo.2 hf'
        refine ⟨by simp [hv, he'], ?_, ?_, ?_, ?_, hseg', hsig'⟩
        · intro _
          rw [hv]
          constructor
          · intro habs
            exact absurd habs (by simp)
          · rintro ⟨m₁, hm₁, _⟩
            simp at hm₁
        · intro _
          rw [hv]
          constructor
          · intro habs
            exact absurd habs (by simp)
          · rintro ⟨m₁, hm₁, _⟩
            simp at hm₁
        · intro _
          rw [hv]
          exact ⟨fun _ => ⟨p, rfl, hf'⟩, fun _ => rfl⟩
        · intro _
          constructor
          · rintro ⟨vp, hvp⟩
            rw [hv] at hvp
            simp at hvp
          · rintro ⟨p₁, hp₁, hpf⟩
            injection hp₁ with hh
            subst hh
            rw [hpf] at hf'
            simp at hf'

/-- Witness for C2's amended taxonomy: applying it to an empty-string
token shows the `MALFORMED` outcome, and to a well-formed valid token
shows success. -/
theorem verify_error_taxonomy_witness :
    Jwt.verifyConsentToken
        ⟨true, false, false, ⟨none, none, none, none, none, none⟩⟩ 0 =
      .error .MALFORMED ∧
    (∃ vp, Jwt.verifyConsentToken Pdp.scnToken 0 = .ok vp) := by
  constructor
  · exact (verify_error_taxonomy
      ⟨true, false, false, ⟨none, none, none, none, none, none⟩⟩ 0).1.mpr rfl
  · exact ((verify_error_taxonomy Pdp.scnToken 0).2.2.2.2.1 rfl).mpr
      ⟨Pdp.scnToken.payload,
       by simp [Jwt.jwtVerify, Pdp.scnToken, Jwt.isNumClaim],
       by simp [Jwt.fieldOk, Pdp.scnToken, Jwt.truthyStr, Jwt.arrVal,
         Jwt.truthyNum]⟩

theorem aggStep_ok_fields (sample : ℚ → ℚ) (sampleData : List Pdp.Sample)
    (epsilon : ℚ) (n : Nat) (category : String)
    (results : Pdp.AggResults) (a : Pdp.Agg) (results₁ : Pdp.AggResults)
    (h : Pdp.aggStep sample sampleData epsilon n category results a =
      .ok results₁) :
    results₁.count = results.count
    ∧ (a ≠ .sum → results₁.sum = results.sum)
    ∧ (a ≠ .min → results₁.min = results.min)
    ∧ (a ≠ .max → results₁.max = results.max)
    ∧ (a ≠ .mean → results₁.mean = results.mean)
    ∧ (a = .sum →
      results₁.sum = Pdp.sumExpected sample sampleData epsilon n)
    ∧ (a = .min →
      results₁.min = Pdp.minExpected sample sampleData epsilon n)
    ∧ (a = .max →
      results₁.max = Pdp.maxExpected sample sampleData epsilon n)
    ∧ (a = .mean →
      Pdp.meanOutcome sample sampleData epsilon n category results₁.mean) := by
  cases a
  case count =>
    simp only [Pdp.aggStep, Except.ok.injEq] at h
    subst h
    refine ⟨rfl, fun _ => rfl, fun _ => rfl, fun _ => rfl, fun _ => rfl,
      ?_, ?_, ?_, ?_⟩ <;> (intro hh; cases hh)
  case mean =>
    simp only [Pdp.aggStep] at h
    by_cases hl : (Pdp.extractNumericValues sampleData).length > 0
    · rw [if_pos hl] at h
      rcases hdp : DP.dpMean sample (Pdp.extractNumericValues sampleData)
          (epsilon / n) (Pdp.estimateDataBounds
            (Pdp.extractNumericValues sampleData) category).lower
          (Pdp.estimateDataBounds
            (Pdp.extractNumericValues sampleData) category).upper with e | m
      · rw [hdp] at h
        cases h
      · rw [hdp] at h
        injection h with h
        subst h
        refine ⟨rfl, fun _ => rfl, fun _ => rfl, fun _ => rfl, ?_,
          ?_, ?_, ?_, ?_⟩
        · intro hh
          exact absurd rfl hh
        · intro hh
          cases hh
        · intro hh
          cases hh
        · intro hh
          cases hh
        · intro _
          rw [Pdp.meanOutcome]
          simp only [if_pos hl]
          exact ⟨m, hdp, rfl⟩
    · rw [if_neg hl] at h
      injection h with h
      subst h
      refine ⟨rfl, fun _ => rfl, fun _ => rfl, fun _ => rfl, ?_,
        ?_, ?_, ?_, ?_⟩
      · intro hh
        exact absurd rfl hh
      · intro hh
        cases hh
      · intro hh
        cases hh
      · intro hh
        cases hh
      · intro _
        rw [Pdp.meanOutcome]
        simp only [if_neg hl]
  case sum =>
    simp only [Pdp.aggStep] at h
    by_cases hl : (Pdp.extractNumericValues sampleData).length > 0
    · rw [if_pos hl] at h
      rcases hmech : DP.laplaceMechanism sample
          (Pdp.extractNumericValues sampleData).sum (epsilon / n) 1 with e | v
      · rw [hmech] at h
        cases h
      · rw [hmech] at h
        injection h with h
        subst h
        have hval : v = (Pdp.extractNumericValues sampleData).sum +
            sample (1 / (epsilon / n)) := by
          rw [DP.laplaceMechanism] at hmech
          split at hmech
          · cases hmech
          · split at hmech
            · cases hmech
            · injection hmech with hv
              exact hv.symm
        refine ⟨rfl, ?_, fun _ => rfl, fun _ => rfl, fun _ => rfl,
          ?_, ?_, ?_, ?_⟩
        · intro hh
          exact absurd rfl hh
        · intro _
          rw [Pdp.sumExpected]
          simp only [if_pos hl]
          rw [hval]
        · intro hh
          cases hh
        · intro hh
          cases hh
        · intro hh
          cases hh
    · rw [if_neg hl] at h
      injection h with h
      subst h
      refine ⟨rfl, ?_, fun _ => rfl, fun _ => rfl, fun _ => rfl,
        ?_, ?_, ?_, ?_⟩
      · intro hh
        exact absurd rfl hh
      · intro _
        rw [Pdp.sumExpected]
        simp only [if_neg hl]
      · intro hh
        cases hh
      · intro hh
        cases hh
      · intro hh
        cases hh
  case min =>
    simp only [Pdp.aggStep] at h
    by_cases hl : (Pdp.extractNumericValues sampleData).length > 0
    · rw [if_pos hl] at h
      rcases hmech : DP.laplaceMechanism sample
          ((Pdp.extractNumericValues sampleData).min?.getD 0)
          (epsilon / n) 1 with e | v
      · rw [hmech] at h
        cases h
      · rw [hmech] at h
        injection h with h
        subst h
        have hval : v = (Pdp.extractNumericValues sampleData).min?.getD 0 +
            sample (1 / (epsilon / n)) := by
          rw [DP.laplaceMechanism] at hmech
          split at hmech
          · cases hmech
          · split at hmech
            · cases hmech
            · injection hmech with hv
              exact hv.symm
        refine ⟨rfl, fun _ => rfl, ?_, fun _ => rfl, fun _ => rfl,
          ?_, ?_, ?_, ?_⟩
        · intro hh
          exact absurd rfl hh
        · intro hh
          cases hh
        · intro _
          rw [Pdp.minExpected]
          simp only [if_pos hl]
          rw [hval]
        · intro hh
          cases hh
        · intro hh
          cases hh
    · rw [if_neg hl] at h
      injection h with h
      subst h
      refine ⟨rfl, fun _ => rfl, ?_, fun _ => rfl, fun _ => rfl,
        ?_, ?_, ?_, ?_⟩
      · intro hh
        exact absurd rfl hh
      · intro hh
        cases hh
      · intro _
        rw [Pdp.minExpected]
        simp only [if_neg hl]
      · intro hh
        cases hh
      · intro hh
        cases hh
  case max =>
    simp only [Pdp.aggStep] at h
    by_cases hl : (Pdp.extractNumericValues sampleData).length > 0
    · rw [if_pos hl] at h
      rcases hmech : DP.laplaceMechanism sample
          ((Pdp.extractNumericValues sampleData).max?.getD 0)
          (epsilon / n) 1 with e | v
      · rw [hmech] at h
        cases h
      · rw [hmech] at h
        injection h with h
        subst h
        have hval : v = (Pdp.extractNumericValues sampleData).max?.getD 0 +
            sample (1 / (epsilon / n)) := by
          rw [DP.laplaceMechanism] at hmech
          split at hmech
          · cases hmech
          · split at hmech
            · cases hmech
            · injection hmech with hv
              exact hv.symm
        refine ⟨rfl, fun _ => rfl, fun _ => rfl, ?_, fun _ => rfl,
          ?_, ?_, ?_, ?_⟩
        · intro hh
          exact absurd rfl hh
        · intro hh
          cases hh
        · intro hh
          cases hh
        · intro _
          rw [Pdp.maxExpected]
          simp only [if_pos hl]
          rw [hval]
        · intro hh
          cases hh
    · rw [if_neg hl] at h
      injection h with h
      subst h
      refine ⟨rfl, fun _ => rfl, fun _ => rfl, ?_, fun _ => rfl,
        ?_, ?_, ?_, ?_⟩
      · intro hh
        exact absurd rfl hh
      · intro hh
        cases hh
      · intro hh
        cases hh
      · intro _
        rw [Pdp.maxExpected]
        simp only [if_neg hl]
      · intro hh
        cases hh

theorem runAggs_fields (sample : ℚ → ℚ) (sampleData : List Pdp.Sample)
    (epsilon : ℚ) (n : Nat) (category : String) :
    ∀ (l : List Pdp.Agg) (results r : Pdp.AggResults),
      Pdp.runAggs sample sampleData epsilon n category results l = .ok r →
      ((Pdp.Agg.sum ∈ l →
        r.sum = Pdp.sumExpected sample sampleData epsilon n)
      ∧ (Pdp.Agg.sum ∉ l → r.sum = results.sum)
      ∧ (Pdp.Agg.min ∈ l →
        r.min = Pdp.minExpected sample sampleData epsilon n)
      ∧ (Pdp.Agg.min ∉ l → r.min = results.min)
      ∧ (Pdp.Agg.max ∈ l →
        r.max = Pdp.maxExpected sample sampleData epsilon n)
      ∧ (Pdp.Agg.max ∉ l → r.max = results.max)
      ∧ (Pdp.Agg.mean ∈ l →
        Pdp.meanOutcome sample sampleData epsilon n category r.mean)
      ∧ (Pdp.Agg.mean ∉ l → r.mean = results.mean)
      ∧ r.count = results.count) := by
  intro l
  induction l with
  | nil =>
    intro results r h
    rw [Pdp.runAggs] at h
    injection h with h
    subst h
    refine ⟨?_, fun _ => rfl, ?_, fun _ => rfl, ?_, fun _ => rfl, ?_,
      fun _ => rfl, rfl⟩ <;> (intro hh; exact absurd hh (List.not_mem_nil _))
  | cons a rest ih =>
    intro results r h
    rw [Pdp.runAggs] at h
    split at h
    · exact absurd h (by simp)
    case _ results₁ hstep =>
      have hf := aggStep_ok_fields sample sampleData epsilon n category
        results a results₁ hstep
      have ihr := ih results₁ r h
      obtain ⟨hfc, hfs, hfm, hfx, hfe, hgs, hgm, hgx, hge⟩ := hf
      obtain ⟨is1, is2, im1, im2, ix1, ix2, ie1, ie2, ic⟩ := ihr
      refine ⟨?_, ?_, ?_, ?_, ?_, ?_, ?_, ?_, ?_⟩
      · intro hmem
        rcases List.mem_cons.mp hmem with heq | hmem'
        · by_cases hrest : Pdp.Agg.sum ∈ rest
          · exact is1 hrest
          · rw [is2 hrest, hgs heq.symm]
        · exact is1 hmem'
      · intro hnmem
        rcases not_or.mp ((List.mem_cons).not.mp hnmem) with ⟨h1, h2⟩
        rw [is2 h2, hfs (fun hh => h1 (hh ▸ rfl))]
      · intro hmem
        rcases List.mem_cons.mp hmem with heq | hmem'
        · by_cases hrest : Pdp.Agg.min ∈ rest
          · exact im1 hrest
          · rw [im2 hrest, hgm heq.symm]
        · exact im1 hmem'
      · intro hnmem
        rcases not_or.mp ((List.mem_cons).not.mp hnmem) with ⟨h1, h2⟩
        rw [im2 h2, hfm (fun hh => h1 (hh ▸ rfl))]
      · intro hmem
        rcases List.mem_cons.mp hmem with heq | hmem'
        · by_cases hrest : Pdp.Agg.max ∈ rest
          · exact ix1 hrest
          · rw [ix2 hrest, hgx heq.symm]
        · exact ix1 hmem'
      · intro hnmem
        rcases not_or.mp ((List.mem_cons).not.mp hnmem) with ⟨h1, h2⟩
        rw [ix2 h2, hfx (fun hh => h1 (hh ▸ rfl))]
      · intro hmem
        rcases List.mem_cons.mp hmem with heq | hmem'
        · by_cases hrest : Pdp.Agg.mean ∈ rest
          · exact ie1 hrest
          · rw [ie2 hrest]
            exact hge heq.symm
        · exact ie1 hmem'
      · intro hnmem
        rcases not_or.mp ((List.mem_cons).not.mp hnmem) with ⟨h1, h2⟩
        rw [ie2 h2, hfe (fun hh => h1 (hh ▸ rfl))]
      · rw [ic, hfc]

/-- C5: when the orchestrator's aggregation loop (invoked by `POST` with
`n = aggregations.length`) succeeds, every requested aggregation among
`sum`, `min`, `max` was noised by `laplaceMechanism` on the true
statistic at the split budget `epsilon / n` (noise scale
`1 / (epsilon / n)`), a requested `mean` was computed by `dpMean` at
`epsilon / n` with the per-category estimated bounds, the loop leaves
`count` untouched, and for `n ≥ 2` the split budget is strictly smaller
than the caller's epsilon — the full epsilon is never applied to these
aggregations independently. -/
theorem epsilon_split_across_aggregations (sample : ℚ → ℚ)
    (sampleData : List Pdp.Sample) (epsilon : ℚ) (category : String)
    (aggs : List Pdp.Agg) (results r : Pdp.AggResults)
    (h : Pdp.runAggs sample sampleData epsilon aggs.length category results
      aggs = .ok r) :
    (Pdp.Agg.sum ∈ aggs →
      r.sum = Pdp.sumExpected sample sampleData epsilon aggs.length)
    ∧ (Pdp.Agg.min ∈ aggs →
      r.min = Pdp.minExpected sample sampleData epsilon aggs.length)
    ∧ (Pdp.Agg.max ∈ aggs →
      r.max = Pdp.maxExpected sample sampleData epsilon aggs.length)
    ∧ (Pdp.Agg.mean ∈ aggs →
      Pdp.meanOutcome sample sampleData epsilon aggs.length category r.mean)
    ∧ r.count = results.count
    ∧ (2 ≤ aggs.length → 0 < epsilon →
      epsilon / (aggs.length : ℚ) < epsilon) := by
  have hr := runAggs_fields sample sampleData epsilon aggs.length category
    aggs results r h
  refine ⟨hr.1, hr.2.2.1, hr.2.2.2.2.1, hr.2.2.2.2.2.2.1,
    hr.2.2.2.2.2.2.2.2, ?_⟩
  intro hn he
  have h1 : (1 : ℚ) < (aggs.length : ℚ) := by
    have : 1 < aggs.length := hn
    exact_mod_cast this
  exact div_lt_self he h1

/-- Witness for C5: a two-aggregation request `[sum, count]` over one
record with the single numeric value 8000, at `epsilon = 1`, stores
under `sum` the true sum noised at scale `1 / (1 / 2)`, and `1 / 2 < 1`. -/
theorem epsilon_split_across_aggregations_witness :
    (Pdp.runAggs (fun _ => 0)
        [⟨"u1", "steps", [("steps", Pdp.PVal.num 8000)], 10⟩] 1 2 "steps"
        ⟨some 8000, none, none, none, none⟩ [Pdp.Agg.sum, Pdp.Agg.count] =
      .ok ⟨some 8000, none, some (some 8000), none, none⟩)
    ∧ (Pdp.AggResults.sum ⟨some 8000, none, some (some 8000), none, none⟩ =
      Pdp.sumExpected (fun _ => 0)
        [⟨"u1", "steps", [("steps", Pdp.PVal.num 8000)], 10⟩] 1 2)
    ∧ ((1 : ℚ) / ([Pdp.Agg.sum, Pdp.Agg.count].length : ℚ) < 1) := by
  have hrun : Pdp.runAggs (fun _ => 0)
      [⟨"u1", "steps", [("steps", Pdp.PVal.num 8000)], 10⟩] 1 2 "steps"
      ⟨some 8000, none, none, none, none⟩ [Pdp.Agg.sum, Pdp.Agg.count] =
      .ok ⟨some 8000, none, some (some 8000), none, none⟩ := by
    simp [Pdp.runAggs, Pdp.aggStep, Pdp.extractNumericValues,
      DP.laplaceMechanism, Except.map]
    norm_num
  have happ := epsilon_split_across_aggregations (fun _ => 0)
    [⟨"u1", "steps", [("steps", Pdp.PVal.num 8000)], 10⟩] 1 "steps"
    [Pdp.Agg.sum, Pdp.Agg.count] ⟨some 8000, none, none, none, none⟩
    ⟨some 8000, none, some (some 8000), none, none⟩ hrun
  refine ⟨hrun, happ.1 (by simp), ?_⟩
  exact happ.2.2.2.2.2 (by simp) (by norm_num)

theorem insertionSort_all_eq (values : List ℚ) (v : ℚ)
    (hall : ∀ x ∈ values, x = v) :
    values.insertionSort (· ≤ ·) = List.replicate values.length v := by
  have hrep : values = List.replicate values.length v :=
    List.eq_replicate_of_mem hall
  conv_lhs => rw [hrep]
  exact List.perm_replicate.mp (List.perm_insertionSort _ _)

theorem getLastD_replicate (v d : ℚ) (n : Nat) :
    (List.replicate (n + 1) v).getLastD d = v := by
  induction n generalizing d with
  | zero => rfl
  | succ k ih =>
    rw [List.replicate_succ, List.getLastD_cons]
    exact ih v

theorem estimateDataBounds_all_eq (values : List ℚ) (v : ℚ)
    (category : String)
    (h1 : category ≠ "health") (h2 : category ≠ "financial")
    (h3 : category ≠ "location") (hne : values ≠ [])
    (hall : ∀ x ∈ values, x = v) :
    Pdp.estimateDataBounds values category = ⟨v, v⟩ := by
  have hlen : values.length ≠ 0 := by simpa using hne
  obtain ⟨n, hn⟩ : ∃ n, values.length = n + 1 :=
    ⟨values.length - 1, by omega⟩
  have hsort := insertionSort_all_eq values v hall
  rw [Pdp.estimateDataBounds, if_neg hlen]
  rw [hsort, hn]
  have hhead : (List.replicate (n + 1) v).headD 0 = v := by
    rw [List.replicate_succ]
    rfl
  simp only [hhead, getLastD_replicate, if_neg h1, if_neg h2, if_neg h3]
  simp

/-- C10: for a category with no per-category bounds entry whose extracted
numeric values are all equal, the fallback bounds computation returns
`min = max` (10% padding of a zero range), so a requested `mean` makes
`dpMean` throw its bounds error; concretely, the witness store — in which
the caller authenticates, the rate limit allows, the token verifies
against an unrevoked record, and consent is `GRANTED` for the unknown
category `steps` holding two equal numeric samples — makes the whole
`mean` request fail with 500 `INTERNAL_ERROR` for every noise draw. -/
theorem equal_values_mean_request_fails (category : String)
    (values : List ℚ) (v epsilon : ℚ) (sample : ℚ → ℚ)
    (h1 : category ≠ "health") (h2 : category ≠ "financial")
    (h3 : category ≠ "location") (hne : values ≠ [])
    (hall : ∀ x ∈ values, x = v) (heps : 0 < epsilon) :
    Pdp.estimateDataBounds values category = ⟨v, v⟩
    ∧ DP.dpMean sample values epsilon v v = .error .minNotLtMax
    ∧ (Pdp.POST Pdp.scnDb Pdp.scnReqMean 0 true sample).1 =
      .err ⟨500, "INTERNAL_ERROR", none⟩ := by
  have hlen : values.length ≠ 0 := by simpa using hne
  refine ⟨estimateDataBounds_all_eq values v category h1 h2 h3 hne hall,
    ?_, ?_⟩
  · simp [DP.dpMean, hlen, not_le.mpr heps]
  · have hc1 : ¬ ((1 : ℚ) ≤ 0) := by norm_num
    simp [Pdp.POST, Guards.requireApiClient, RateLimit.checkRateLimit,
      RateLimit.checkRateLimitWith, RateLimit.findBucket,
      RateLimit.rateLimitConfig, Guards.requireConsentToken,
      Guards.lowerStr, Guards.asciiLower, Jwt.verifyConsentToken,
      Jwt.jwtVerify, Jwt.isNumClaim, Jwt.truthyStr, Jwt.arrVal,
      Jwt.truthyNum, Pdp.scnDb, Pdp.scnReqMean, Pdp.scnToken,
      Pdp.querySchemaParse, Pdp.parseAggs, Pdp.parseAgg,
      Guards.ensureConsentAllowed, Guards.checkPolicies, Pdp.runAggs,
      Pdp.aggStep, Pdp.extractNumericValues, Pdp.estimateDataBounds,
      DP.dpMean, DP.laplaceMechanism, List.insertionSort,
      List.orderedInsert, List.find?, Guards.consentErrFailure,
      Except.map, hc1]

theorem requireApiClient_ok (apiClients : List Guards.ApiClient)
    (hdr : Option String) (c : Guards.ApiClient)
    (h : Guards.requireApiClient apiClients hdr = .ok c) :
    ∃ key, hdr = some key ∧
      apiClients.find? (fun cl => cl.apiKey == key) = some c := by
  rcases hdr with _ | key
  · rw [Guards.requireApiClient] at h
    exact absurd h (by simp)
  · rw [Guards.requireApiClient] at h
    split at h
    · exact absurd h (by simp)
    next c₁ hf =>
      injection h with h
      subst h
      exact ⟨key, rfl, hf⟩

theorem checkRateLimit_ok_capacity (buckets : List RateLimit.Bucket)
    (apiKey endpoint : String) (nowMs : Int) (r : RateLimit.RLResult)
    (bs : List RateLimit.Bucket)
    (h : RateLimit.checkRateLimit true buckets apiKey endpoint nowMs =
      (.ok r, bs)) :
    Pdp.hasCapacity buckets apiKey endpoint nowMs := by
  simp only [RateLimit.checkRateLimit, RateLimit.checkRateLimitWith,
    if_true] at h
  simp only [Pdp.hasCapacity]
  intro b hfind
  rw [hfind] at h
  split at h
  next heq => exact absurd heq (by simp)
  next b₂ heq =>
    injection heq with heq
    subst heq
    split at h
    · exact absurd h (by simp)
    next hge => exact lt_of_not_le hge

theorem requireConsentToken_ok (consentTokens : List Guards.StoredToken)
    (authHeader : Option Guards.AuthHeader) (nowMs : Int)
    (payload : Jwt.ValidPayload)
    (h : Guards.requireConsentToken consentTokens authHeader nowMs =
      .ok payload) :
    ∃ hdr storedToken, authHeader = some hdr ∧
      Jwt.verifyConsentToken hdr.token (Int.fdiv nowMs 1000) = .ok payload ∧
      consentTokens.find?
        (fun st => st.jwt == hdr.token && st.userId == payload.sub) =
          some storedToken ∧
      storedToken.revoked = false ∧ ¬ storedToken.expiresAtMs < nowMs := by
  rcases authHeader with _ | hdr
  · rw [Guards.requireConsentToken] at h
    exact absurd h (by simp)
  rw [Guards.requireConsentToken] at h
  split at h
  · exact absurd h (by simp)
  next hfmt =>
    split at h
    · exact absurd h (by simp)
    next pl hverify =>
      split at h
      · exact absurd h (by simp)
      next st hfind =>
        split at h
        · exact absurd h (by simp)
        next hrev =>
          split at h
          · exact absurd h (by simp)
          next hexp =>
            injection h with h
            subst h
            exact ⟨hdr, st, rfl, hverify, hfind, by simpa using hrev, hexp⟩

theorem checkPolicies_ok_all (nowMs : Int) (scopes : List String) :
    ∀ l, Guards.checkPolicies nowMs scopes l = .ok () →
      ∀ p ∈ l, p.status = .GRANTED ∧
        (∀ e, p.expiresAtMs = some e → ¬ e < nowMs) ∧
        (∀ s ∈ scopes, p.scopes.contains s = true) := by
  intro l
  induction l with
  | nil =>
    intro _ p hp
    exact absurd hp (List.not_mem_nil _)
  | cons q rest ih =>
    intro h p hp
    simp only [Guards.checkPolicies] at h
    by_cases h1 : q.status = .REVOKED
    · rw [if_pos h1] at h
      exact absurd h (by simp)
    rw [if_neg h1] at h
    by_cases h2 : q.status = .RESTRICTED
    · rw [if_pos h2] at h
      exact absurd h (by simp)
    rw [if_neg h2] at h
    by_cases h3 : q.status ≠ .GRANTED
    · rw [if_pos h3] at h
      exact absurd h (by simp)
    rw [if_neg h3] at h
    by_cases h4 : (match q.expiresAtMs with
        | some e => decide (e < nowMs)
        | none => false) = true
    · rw [if_pos h4] at h
      exact absurd h (by simp)
    rw [if_neg h4] at h
    by_cases h5 : (scopes.filter (fun s => ¬ q.scopes.contains s)) ≠ []
    · rw [if_pos h5] at h
      exact absurd h (by simp)
    rw [if_neg h5] at h
    have hq : q.status = .GRANTED ∧
        (∀ e, q.expiresAtMs = some e → ¬ e < nowMs) ∧
        (∀ s ∈ scopes, q.scopes.contains s = true) := by
      refine ⟨not_not.mp h3, ?_, ?_⟩
      · intro e he
        rw [he] at h4
        simpa using h4
      · have h5' := not_not.mp h5
        rw [List.filter_eq_nil_iff] at h5'
        intro s hs
        have := h5' s hs
        simpa using this
    rcases List.mem_cons.mp hp with heq | hmem
    · rw [heq]
      exact hq
    · exact ih h p hmem

theorem ensureConsentAllowed_ok_policy (policies : List Guards.Policy)
    (nowMs : Int) (ps : Guards.ConsentCheckParams)
    (h : Guards.ensureConsentAllowed policies nowMs ps = .ok ()) :
    ∀ cat ∈ ps.categories, ∃ p ∈ policies,
      p.userId = ps.userId ∧ p.categoryKey = cat ∧ p.purpose = ps.purpose ∧
      p.status = .GRANTED ∧ (∀ e, p.expiresAtMs = some e → ¬ e < nowMs) ∧
      (∀ s ∈ ps.scopes, p.scopes.contains s = true) := by
  intro cat hcat
  simp only [Guards.ensureConsentAllowed] at h
  by_cases h0 : ps.userId = "" ∨ ps.purpose = ""
  · rw [if_pos h0] at h
    exact absurd h (by simp)
  rw [if_neg h0] at h
  by_cases hmiss : (ps.categories.filter (fun c =>
      ¬ ((policies.filter (fun p => p.userId == ps.userId &&
        ps.categories.contains p.categoryKey &&
        p.purpose == ps.purpose)).map (fun p => p.categoryKey)).contains c))
      ≠ []
  · rw [if_pos hmiss] at h
    exact absurd h (by simp)
  rw [if_neg hmiss] at h
  have hmiss' := not_not.mp hmiss
  rw [List.filter_eq_nil_iff] at hmiss'
  have hconts : ∃ x ∈ policies, x.userId = ps.userId ∧
      x.categoryKey ∈ ps.categories ∧ x.purpose = ps.purpose ∧
      x.categoryKey = cat := by
    simpa using hmiss' cat hcat
  rcases hconts with ⟨p, hpin, hu, hck, hpu, hkey⟩
  have hpmem : p ∈ policies.filter (fun p => p.userId == ps.userId &&
      ps.categories.contains p.categoryKey && p.purpose == ps.purpose) :=
    List.mem_filter.mpr ⟨hpin, by simp [hu, hck, hpu]⟩
  have hpfacts := checkPolicies_ok_all nowMs ps.scopes _ h p hpmem
  exact ⟨p, hpin, hu, hkey, hpu, hpfacts.1, hpfacts.2.1, hpfacts.2.2⟩

/-- C1: a success result from `POST /api/pdp/query` implies that, at the
instant of evaluation, every gate held: the API key resolved to a
client, that client's rate-limit bucket for the current fixed window had
remaining capacity, the bearer token verified and its persisted record
existed, was not revoked and not expired, the body validated, and a
`GRANTED`, unexpired consent policy whose scopes cover the required
`{read, aggregate}` existed for the token's subject, the requested
category and the request's purpose.  Contrapositively, when any of these
fails the endpoint's result is the `PostResult.err` alternative — a
typed failure carrying a status and machine code and no aggregate
result. -/
theorem query_success_requires_gates (db : Pdp.Db) (req : Pdp.Req)
    (nowMs : Int) (sample : ℚ → ℚ) (d : Pdp.SuccessData)
    (h : (Pdp.POST db req nowMs true sample).1 = .ok d) :
    Pdp.successPreconditions db req nowMs := by
  obtain ⟨db₂, h'⟩ : ∃ db₂,
      Pdp.POST db req nowMs true sample = (.ok d, db₂) :=
    ⟨(Pdp.POST db req nowMs true sample).2, Prod.ext h rfl⟩
  simp only [Pdp.POST] at h'
  split at h'
  case _ f hapi => exact absurd h' (by simp)
  case _ apiClient hapi =>
    split at h'
    case _ e buckets₁ hrl => exact absurd h' (by simp)
    case _ rl buckets₁ hrl =>
      split at h'
      case _ f hct => exact absurd h' (by simp)
      case _ tokenPayload hct =>
        split at h'
        case _ hq => exact absurd h' (by simp)
        case _ q hq =>
          split at h'
          case _ e hcons => exact absurd h' (by simp)
          case _ u hcons =>
            split at h'
            case _ hcat => exact absurd h' (by simp)
            case _ dataCategory hcat =>
              split at h'
              case _ e hlap => exact absurd h' (by simp)
              case _ noisyCount hlap =>
                rcases requireApiClient_ok _ _ _ hapi with ⟨key, hkey, hfindc⟩
                rcases requireConsentToken_ok _ _ _ _ hct with
                  ⟨hdr, st, hhdr, hver, hfindt, hrev, hexp⟩
                have hpol := ensureConsentAllowed_ok_policy _ _ _ hcons
                  q.category (by simp)
                rcases hpol with ⟨p, hpin, hpu, hpc, hpp, hps, hpe, hpsc⟩
                have hcap := checkRateLimit_ok_capacity _ _ _ _ _ _ hrl
                have hgoal : Pdp.successPreconditions db req nowMs :=
                  ⟨⟨key, apiClient, hkey, hfindc, hcap⟩,
                   ⟨hdr, tokenPayload, st, hhdr, hver, hfindt, hrev, hexp,
                    ⟨q, hq, ⟨p, hpin, hpu, hpc, hpp, hps, hpe,
                      hpsc "read" (by simp), hpsc "aggregate" (by simp)⟩⟩⟩⟩
                exact hgoal

/-- Witness for C1: in the witness store every gate passes, the request
(defaulting to the `count` aggregation) succeeds with a noised count,
and the theorem yields all the preconditions. -/
theorem query_success_requires_gates_witness :
    (Pdp.POST Pdp.scnDb Pdp.scnReqCount 0 true (fun _ => 0)).1 =
      .ok ⟨⟨some 2, none, none, none, none⟩, 1, "steps", "research", "u1",
        2, false, some ⟨100, 99, 60⟩⟩
    ∧ Pdp.successPreconditions Pdp.scnDb Pdp.scnReqCount 0 := by
  have hc1 : ¬ ((1 : ℚ) ≤ 0) := by norm_num
  have hpost : (Pdp.POST Pdp.scnDb Pdp.scnReqCount 0 true (fun _ => 0)).1 =
      .ok ⟨⟨some 2, none, none, none, none⟩, 1, "steps", "research", "u1",
        2, false, some ⟨100, 99, 60⟩⟩ := by
    simp [Pdp.POST, Guards.requireApiClient, RateLimit.checkRateLimit,
      RateLimit.checkRateLimitWith, RateLimit.findBucket,
      RateLimit.rateLimitConfig, Guards.requireConsentToken,
      Guards.lowerStr, Guards.asciiLower, Jwt.verifyConsentToken,
      Jwt.jwtVerify, Jwt.isNumClaim, Jwt.truthyStr, Jwt.arrVal,
      Jwt.truthyNum, Pdp.scnDb, Pdp.scnReqCount, Pdp.scnToken,
      Pdp.querySchemaParse, Pdp.parseAggs, Pdp.parseAgg,
      Guards.ensureConsentAllowed, Guards.checkPolicies, Pdp.runAggs,
      Pdp.aggStep, Pdp.extractNumericValues, DP.laplaceMechanism,
      List.insertionSort, List.orderedInsert, List.find?,
      Guards.consentErrFailure, Except.map, hc1, round_eq]
  exact ⟨hpost, query_success_requires_gates _ _ _ _ _ hpost⟩

/-- Witness for C10 at the witness store's data: two equal values `8000`
in the unknown category `steps` collapse the fallback bounds, `dpMean`
throws, and the whole `mean` request fails with 500 `INTERNAL_ERROR`
despite authentication, rate limiting and consent all passing. -/
theorem equal_values_mean_request_fails_witness :
    Pdp.estimateDataBounds [8000, 8000] "steps" = ⟨8000, 8000⟩
    ∧ DP.dpMean (fun _ => 0) [8000, 8000] 1 8000 8000 =
      .error .minNotLtMax
    ∧ (Pdp.POST Pdp.scnDb Pdp.scnReqMean 0 true (fun _ => 0)).1 =
      .err ⟨500, "INTERNAL_ERROR", none⟩ :=
  equal_values_mean_request_fails "steps" [8000, 8000] 8000 1 (fun _ => 0)
    (by decide) (by decide) (by decide) (by simp)
    (by intro x hx; simpa using hx) (by norm_num)
